import Mathlib

/-!
Verification of the TraceWave annotation core.

This file gives a shallow embedding, in Lean, of the annotation data model
and persistence layer of the repository (src/models.py), the SAM2 prompt
workflow entry point (src/ui/main_window.py, run_sam2) and the save routine
(src/models.py, save_annotations), together with theorems settling the
specification claims about them.

Python dictionaries are modelled as insertion-ordered association lists
(assignment to an existing key keeps its position, a new key is appended),
Python `int` as `Int`, optional values as `Option`, and raw JSON record
fields as the inductive `JVal` below.  Exceptions raised while a record is
parsed are modelled by cutting the per-record update short at the point of
the raise, exactly as the `try/except` in `load_records` does.
-/

set_option linter.unusedVariables false

/-- A JSON-like value: the shapes a persisted record field can carry. -/
inductive JVal where
  | jnull : JVal
  | jint : Int → JVal
  | jstr : String → JVal
  | jlist : List JVal → JVal

open JVal

/-- Value of a digit string, most significant first. -/
def digitsVal (cs : List Char) : Nat :=
  cs.foldl (fun a c => a * 10 + (c.toNat - 48)) 0

/-- Python `int(s)` on a string: optional sign followed by digits. -/
def pyStrToInt (s : String) : Option Int :=
  match s.toList with
  | [] => none
  | c :: cs =>
    if c = '-' then
      if (!cs.isEmpty) && cs.all Char.isDigit then some (-(digitsVal cs : Int)) else none
    else if c = '+' then
      if (!cs.isEmpty) && cs.all Char.isDigit then some ((digitsVal cs : Int)) else none
    else if (c :: cs).all Char.isDigit then some ((digitsVal (c :: cs) : Int)) else none

/-- Python `int(v)` on a JSON value: succeeds on integers and numeric
    strings, raises (here: `none`) on anything else. -/
def pyToInt : JVal → Option Int
  | jint n => some n
  | jstr s => pyStrToInt s
  | _ => none

/-- Python truthiness of a JSON value. -/
def pyTruthy : JVal → Bool
  | jnull => false
  | jint n => n != 0
  | jstr s => !s.isEmpty
  | jlist l => !l.isEmpty

/-! ### Association lists standing in for Python dicts -/

/-- Dict lookup (`d.get(k)`). -/
def alGet {α : Type} (k : Int) : List (Int × α) → Option α
  | [] => none
  | (k2, v) :: t => if k2 = k then some v else alGet k t

/-- Dict assignment (`d[k] = v`): replace in place, or append a new key. -/
def alSet {α : Type} (k : Int) (v : α) : List (Int × α) → List (Int × α)
  | [] => [(k, v)]
  | (k2, v2) :: t => if k2 = k then (k2, v) :: t else (k2, v2) :: alSet k v t

/-- Update the value at a present key in place (no-op when absent). -/
def alModify {α : Type} (k : Int) (f : α → α) : List (Int × α) → List (Int × α)
  | [] => []
  | (k2, v) :: t => if k2 = k then (k2, f v) :: t else (k2, v) :: alModify k f t

/-- `d.setdefault(k, dflt)`-like step used by the ensure helpers. -/
def alEnsure {α : Type} (k : Int) (d : α) (l : List (Int × α)) : List (Int × α) :=
  match alGet k l with
  | some _ => l
  | none => l ++ [(k, d)]

/-! ### The data model (src/models.py) -/

/-- `ObjectAnno`: one object's annotation on one frame. -/
structure ObjectAnno where
  box : Option (Int × Int × Int × Int) := none
  points : List (Int × Int) := []
  labels : List Int := []
  polygon : Option (List (Int × Int)) := none
  class_name : Option String := none
deriving DecidableEq

/-- `ObjectAnno.add_point`. -/
def ObjectAnno.add_point (o : ObjectAnno) (x y label : Int) : ObjectAnno :=
  { o with points := o.points ++ [(x, y)], labels := o.labels ++ [label] }

/-- The scan of `ObjectAnno.remove_point`: walk the zipped point/label
    sequences, delete the first exact match (and its parallel label). -/
def removeFirstMatch (x y label : Int) :
    List (Int × Int) → List Int → Option (List (Int × Int) × List Int)
  | [], _ => none
  | _ :: _, [] => none
  | (px, py) :: ps, lab :: labs =>
    if px = x && py = y && lab = label then some (ps, labs)
    else
      match removeFirstMatch x y label ps labs with
      | none => none
      | some (ps2, labs2) => some ((px, py) :: ps2, lab :: labs2)

/-- `ObjectAnno.remove_point`: returns the updated object and the found flag. -/
def ObjectAnno.remove_point (o : ObjectAnno) (x y label : Int) : ObjectAnno × Bool :=
  match removeFirstMatch x y label o.points o.labels with
  | none => (o, false)
  | some (ps, labs) => ({ o with points := ps, labels := labs }, true)

/-- `ObjectAnno.set_box`. -/
def ObjectAnno.set_box (o : ObjectAnno) (x y w h : Int) : ObjectAnno :=
  { o with box := some (x, y, w, h) }

/-- `ObjectAnno.set_polygon`: a falsy argument (absent or empty) clears it. -/
def ObjectAnno.set_polygon (o : ObjectAnno) (p : Option (List (Int × Int))) : ObjectAnno :=
  match p with
  | some l => if l.isEmpty then { o with polygon := none } else { o with polygon := some l }
  | none => { o with polygon := none }

/-- `ObjectAnno.set_class`. -/
def ObjectAnno.set_class (o : ObjectAnno) (name : Option String) : ObjectAnno :=
  { o with class_name := name }

/-- `FrameAnno`: object id → object annotation, insertion ordered. -/
structure FrameAnno where
  objects : List (Int × ObjectAnno) := []
deriving DecidableEq

/-- `FrameAnno.ensure_object`. -/
def FrameAnno.ensure_object (fr : FrameAnno) (oid : Int) : FrameAnno :=
  { fr with objects := alEnsure oid {} fr.objects }

/-! ### Frame enumeration (`_numeric_key` and the sorted listing) -/

/-- Position of the last dot of a name (`str.rfind`), if any. -/
def lastDotPos : List Char → Option Nat
  | [] => none
  | c :: cs =>
    match lastDotPos cs with
    | some i => some (i + 1)
    | none => if c = '.' then some 0 else none

/-- `Path(name).stem`: the name without its final suffix. -/
def pathStem (name : String) : String :=
  let cs := name.toList
  match lastDotPos cs with
  | some i => if 0 < i ∧ i < cs.length - 1 then String.mk (cs.take i) else name
  | none => name

/-- `Path(name).suffix`: the final extension, dot included, possibly empty. -/
def pathSuffix (name : String) : String :=
  let cs := name.toList
  match lastDotPos cs with
  | some i => if 0 < i ∧ i < cs.length - 1 then String.mk (cs.drop i) else ""
  | none => ""

/-- Python `s.isdigit()` (ASCII): nonempty and all digits. -/
def pyIsDigit (s : String) : Bool := (!s.isEmpty) && s.toList.all Char.isDigit

/-- Accumulating pass of `re.findall` for maximal digit runs; `acc` holds
    the reversed run in progress. -/
def digitRunsAux : List Char → List Char → List (List Char)
  | [], acc => if acc.isEmpty then [] else [acc.reverse]
  | c :: cs, acc =>
    if c.isDigit then digitRunsAux cs (c :: acc)
    else if acc.isEmpty then digitRunsAux cs acc
    else acc.reverse :: digitRunsAux cs []

/-- All maximal digit runs of a name, in order (the matches of `\d+`). -/
def digitRuns (cs : List Char) : List (List Char) := digitRunsAux cs []

/-- `_numeric_key` (src/models.py): pure-digit stem, else last digit run,
    else 0. -/
def numeric_key (name : String) : Int :=
  let s := pathStem name
  if pyIsDigit s then (digitsVal s.toList : Int)
  else
    match (digitRuns s.toList).getLast? with
    | some run => (digitsVal run : Int)
    | none => 0

/-- Modelled from the spec words for comparison: the last contiguous digit
    run of a stem, read off from the right end of the string. -/
def specLastRun (cs : List Char) : List Char :=
  ((cs.reverse.dropWhile (fun c => !c.isDigit)).takeWhile Char.isDigit).reverse

/-- The frame ordering key as the spec phrases it: a pure-digit stem maps to
    the integer it spells, otherwise to the integer formed by the last
    contiguous run of digits in the stem, otherwise to 0. -/
def specNumericKey (name : String) : Int :=
  let s := pathStem name
  if pyIsDigit s then (digitsVal s.toList : Int)
  else if (specLastRun s.toList).isEmpty then 0
  else (digitsVal (specLastRun s.toList) : Int)

/-- Stable insertion into a list already sorted by `key`. -/
def insByKey (key : String → Int) (x : String) : List String → List String
  | [] => [x]
  | y :: t => if key x ≤ key y then x :: y :: t else y :: insByKey key x t

/-- Python `sorted(names, key=key)` (a stable sort). -/
def sortByKey (key : String → Int) (l : List String) : List String :=
  l.foldr (insByKey key) []

/-- Image extensions recognised by the frame listing. -/
def IMG_EXTS : List String := [".jpg", ".jpeg", ".png", ".bmp", ".tif", ".tiff"]

/-- ASCII lower-casing on character codes. -/
def lowerNat (n : Nat) : Nat := if 65 ≤ n ∧ n ≤ 90 then n + 32 else n

/-- `s.lower() == ext` for an already-lowercase ASCII extension. -/
def lowerEq (s ext : String) : Bool :=
  decide ((s.toList.map fun c => lowerNat c.toNat) = ext.toList.map Char.toNat)

/-! ### The per-video store (`AnnotationModel`) -/

/-- `AnnotationModel`: frame list, cursor, sparse frame map, dirty flag. -/
structure AnnotationModel where
  frames : List String
  index : Int := 0
  ann : List (Int × FrameAnno) := []
  dirty : Bool := false
deriving DecidableEq

/-- `AnnotationModel.__init__` on a directory listing: keep image files,
    sort them by the numeric key; empty annotations, cursor 0, not dirty. -/
def AnnotationModel.init (listing : List String) : AnnotationModel :=
  { frames := sortByKey numeric_key
      (listing.filter fun n => IMG_EXTS.any fun e => lowerEq (pathSuffix n) e) }

/-- `clamp_index`. -/
def AnnotationModel.clamp_index (m : AnnotationModel) (i : Int) : Int :=
  if m.frames.isEmpty then 0 else max 0 (min i ((m.frames.length : Int) - 1))

/-- `set_index`. -/
def AnnotationModel.set_index (m : AnnotationModel) (i : Int) : AnnotationModel :=
  { m with index := m.clamp_index i }

/-- `self._frame(fidx)`: make sure the frame entry exists. -/
def AnnotationModel.ensureFrame (m : AnnotationModel) (fidx : Int) : AnnotationModel :=
  { m with ann := alEnsure fidx {} m.ann }

/-- `self._frame(fidx).ensure_object(oid)`: make sure frame and object exist. -/
def AnnotationModel.ensureObj (m : AnnotationModel) (fidx oid : Int) : AnnotationModel :=
  let m1 := m.ensureFrame fidx
  { m1 with ann := alModify fidx (fun fr => fr.ensure_object oid) m1.ann }

/-- In-place update of the object stored at `(fidx, oid)`. -/
def AnnotationModel.modifyObj (m : AnnotationModel) (fidx oid : Int)
    (f : ObjectAnno → ObjectAnno) : AnnotationModel :=
  let g := fun (fr : FrameAnno) => { fr with objects := alModify oid f fr.objects }
  { m with ann := alModify fidx g m.ann }

/-- The object stored at `(fidx, oid)`, defaulting to a fresh one. -/
def AnnotationModel.getObjD (m : AnnotationModel) (fidx oid : Int) : ObjectAnno :=
  match alGet fidx m.ann with
  | none => {}
  | some fr => (alGet oid fr.objects).getD {}

/-- `AnnotationModel.add_point`. -/
def AnnotationModel.add_point (m : AnnotationModel) (oid x y label : Int) : AnnotationModel :=
  let m1 := (m.ensureObj m.index oid).modifyObj m.index oid (fun o => o.add_point x y label)
  { m1 with dirty := true }

/-- `AnnotationModel.remove_point`: dirty only if a match was removed. -/
def AnnotationModel.remove_point (m : AnnotationModel) (oid x y label : Int) :
    AnnotationModel × Bool :=
  let m1 := m.ensureObj m.index oid
  let r := (m1.getObjD m.index oid).remove_point x y label
  let m2 := m1.modifyObj m.index oid (fun _ => r.1)
  (if r.2 then { m2 with dirty := true } else m2, r.2)

/-- `AnnotationModel.set_box`. -/
def AnnotationModel.set_box (m : AnnotationModel) (oid x y w h : Int) : AnnotationModel :=
  let m1 := (m.ensureObj m.index oid).modifyObj m.index oid (fun o => o.set_box x y w h)
  { m1 with dirty := true }

/-- `AnnotationModel.set_polygon`. -/
def AnnotationModel.set_polygon (m : AnnotationModel) (oid : Int)
    (p : Option (List (Int × Int))) : AnnotationModel :=
  let m1 := (m.ensureObj m.index oid).modifyObj m.index oid (fun o => o.set_polygon p)
  { m1 with dirty := true }

/-- `AnnotationModel.set_class`. -/
def AnnotationModel.set_class (m : AnnotationModel) (oid : Int)
    (name : Option String) : AnnotationModel :=
  let m1 := (m.ensureObj m.index oid).modifyObj m.index oid (fun o => o.set_class name)
  { m1 with dirty := true }

/-- `AnnotationModel.clear_object`: reset to an empty object, only when the
    frame and the object already exist. -/
def AnnotationModel.clear_object (m : AnnotationModel) (oid : Int) : AnnotationModel :=
  match alGet m.index m.ann with
  | none => m
  | some fr =>
    match alGet oid fr.objects with
    | none => m
    | some _ =>
      let m1 := m.modifyObj m.index oid (fun _ => {})
      { m1 with dirty := true }

/-- `AnnotationModel.get_object`. -/
def AnnotationModel.get_object (m : AnnotationModel) (fidx oid : Int) : Option ObjectAnno :=
  match alGet fidx m.ann with
  | none => none
  | some fr => alGet oid fr.objects

/-- The valid-box check used by `is_frame_annotated` and `to_records`. -/
def boxValid : Option (Int × Int × Int × Int) → Bool
  | some (_, _, w, h) => w > 0 && h > 0
  | none => false

/-- The 3-or-more-vertex polygon check of the same two functions. -/
def polyBig : Option (List (Int × Int)) → Bool
  | some p => decide (3 ≤ p.length)
  | none => false

/-- Has-content test: valid box, or at least one point, or a big polygon. -/
def hasContent (o : ObjectAnno) : Bool :=
  boxValid o.box || !o.points.isEmpty || polyBig o.polygon

/-- `AnnotationModel.is_frame_annotated`. -/
def AnnotationModel.is_frame_annotated (m : AnnotationModel) (fidx : Int) : Bool :=
  match alGet fidx m.ann with
  | none => false
  | some fr => fr.objects.any fun e => hasContent e.2

/-! ### Persistence: records, `to_records`, `load_records` -/

/-- A fully-typed record, the shape `to_records` emits: optional fields are
    present exactly when the source puts the key into the dict. -/
structure FullRec where
  video_id : String
  frame_idx : Int
  obj_id : Int
  points : List (Int × Int)
  labels : List Int
  cls : Option String
  box : Option (Int × Int × Int × Int)
  polygon : Option (List (Int × Int))
deriving DecidableEq

/-- A raw persisted record: each JSON field either absent or some value.
    The `class` field is copied verbatim by the loader, so it is carried at
    type `String` directly. -/
structure RawRec where
  video_id : Option JVal := none
  frame_idx : Option JVal := none
  obj_id : Option JVal := none
  points : Option JVal := none
  labels : Option JVal := none
  box : Option JVal := none
  polygon : Option JVal := none
  cls : Option String := none

/-- JSON encoding of one point. -/
def encPoint (p : Int × Int) : JVal := jlist [jint p.1, jint p.2]

/-- The JSON shape of a typed record. -/
def FullRec.encode (r : FullRec) : RawRec :=
  { video_id := some (jstr r.video_id),
    frame_idx := some (jint r.frame_idx),
    obj_id := some (jint r.obj_id),
    points := some (jlist (r.points.map encPoint)),
    labels := some (jlist (r.labels.map jint)),
    box := r.box.map (fun b => jlist [jint b.1, jint b.2.1, jint b.2.2.1, jint b.2.2.2]),
    polygon := r.polygon.map (fun p => jlist (p.map encPoint)),
    cls := r.cls }

/-- The record `to_records` emits for one contentful object: class only when
    truthy, box only when valid, polygon only when it has 3 or more
    vertices. -/
def mkRec (vid : String) (fidx oid : Int) (o : ObjectAnno) : FullRec :=
  { video_id := vid, frame_idx := fidx, obj_id := oid,
    points := o.points, labels := o.labels,
    cls := match o.class_name with
           | some s => if s.isEmpty then none else some s
           | none => none,
    box := if boxValid o.box then o.box else none,
    polygon := if polyBig o.polygon then o.polygon else none }

/-- Sorted insertion for integer keys. -/
def insInt (x : Int) : List Int → List Int
  | [] => [x]
  | y :: t => if x ≤ y then x :: y :: t else y :: insInt x t

/-- `sorted` on integer keys. -/
def sortInts (l : List Int) : List Int := l.foldr insInt []

/-- `to_records`, typed level: touched frames in ascending order, objects in
    ascending id order, one record per contentful object. -/
def AnnotationModel.toFullRecs (m : AnnotationModel) (vid : String) : List FullRec :=
  (sortInts (m.ann.map Prod.fst)).flatMap fun fidx =>
    match alGet fidx m.ann with
    | none => []
    | some fr =>
      (sortInts (fr.objects.map Prod.fst)).filterMap fun oid =>
        match alGet oid fr.objects with
        | none => none
        | some o => if hasContent o then some (mkRec vid fidx oid o) else none

/-- `AnnotationModel.to_records`. -/
def AnnotationModel.to_records (m : AnnotationModel) (vid : String) : List RawRec :=
  (m.toFullRecs vid).map FullRec.encode

/-- One point of a record, as the unpacking loop reads it: a two-element
    list of numbers, or (Python stringiness) a two-character digit string. -/
def parsePair : JVal → Option (Int × Int)
  | jlist [a, b] => do
      let x ← pyToInt a
      let y ← pyToInt b
      some (x, y)
  | jlist _ => none
  | jstr s =>
      match s.toList with
      | [c1, c2] => do
          let x ← pyStrToInt (String.mk [c1])
          let y ← pyStrToInt (String.mk [c2])
          some (x, y)
      | _ => none
  | _ => none

/-- Left-to-right traversal of a comprehension body: the first failing
    element raises. -/
def parseAll {σ α : Type} (f : σ → Option α) : List σ → Option (List α)
  | [] => some []
  | v :: t =>
    match f v with
    | none => none
    | some a =>
      match parseAll f t with
      | none => none
      | some r => some (a :: r)

/-- The `points` comprehension of `load_records`; `none` is a raise. -/
def parsePoints : JVal → Option (List (Int × Int))
  | jlist l => parseAll parsePair l
  | _ => none

/-- The `labels` comprehension of `load_records`; iterating a string visits
    its characters. -/
def parseLabels : JVal → Option (List Int)
  | jlist l => parseAll pyToInt l
  | jstr s => parseAll (fun c => pyStrToInt (String.mk [c])) s.toList
  | _ => none

/-- `rec.get(key, []) or []`. -/
def orEmptyList (v : Option JVal) : JVal :=
  let raw := v.getD (jlist [])
  if pyTruthy raw then raw else jlist []

/-- The `box` step of `load_records`: outer `none` is a raise inside the
    tuple comprehension, inner `none` means the guard failed (no
    assignment). -/
def parseBoxField (v : Option JVal) : Option (Option (Int × Int × Int × Int)) :=
  match v.getD jnull with
  | jlist [a, b, c, d] =>
      match pyToInt a, pyToInt b, pyToInt c, pyToInt d with
      | some x, some y, some w, some h => some (some (x, y, w, h))
      | _, _, _, _ => none
  | _ => some none

/-- The `polygon` step of `load_records`, same convention as the box step. -/
def parsePolyField (v : Option JVal) : Option (Option (List (Int × Int))) :=
  match v.getD jnull with
  | jlist l =>
      if decide (3 ≤ l.length) then
        match parseAll parsePair l with
        | some ps => some (some ps)
        | none => none
      else some none
  | _ => some none

/-- One iteration of the `load_records` loop.  Each failing parse raises
    inside the `try`, so the record is abandoned with every assignment made
    so far kept — the result at each failure point is the store as already
    mutated. -/
def AnnotationModel.loadRec (m : AnnotationModel) (rec : RawRec) : AnnotationModel :=
  match pyToInt (rec.frame_idx.getD (jint 0)) with
  | none => m
  | some fidx =>
    match pyToInt (rec.obj_id.getD (jint 1)) with
    | none => m
    | some oid =>
      let m1 := m.ensureObj fidx oid
      match parsePoints (orEmptyList rec.points) with
      | none => m1
      | some ps =>
        let m2 := m1.modifyObj fidx oid (fun o => { o with points := ps })
        match parseLabels (orEmptyList rec.labels) with
        | none => m2
        | some ls =>
          let m3 := m2.modifyObj fidx oid (fun o => { o with labels := ls })
          match parseBoxField rec.box with
          | none => m3
          | some ob =>
            let m4 := match ob with
                      | some b => m3.modifyObj fidx oid (fun o => { o with box := some b })
                      | none => m3
            match parsePolyField rec.polygon with
            | none => m4
            | some op =>
              let m5 := match op with
                        | some p => m4.modifyObj fidx oid (fun o => { o with polygon := some p })
                        | none => m4
              m5.modifyObj fidx oid (fun o => { o with class_name := rec.cls })

/-- `AnnotationModel.load_records`. -/
def AnnotationModel.load_records (m : AnnotationModel) (recs : List RawRec) : AnnotationModel :=
  recs.foldl AnnotationModel.loadRec m

/-- The effect of loading one fully-typed record: ensure the slot, then
    overwrite points, labels and class, and overwrite box / polygon exactly
    when the record carries a well-shaped one. -/
def AnnotationModel.applyFull (m : AnnotationModel) (r : FullRec) : AnnotationModel :=
  let f := r.frame_idx
  let oid := r.obj_id
  let m1 := m.ensureObj f oid
  let m2 := m1.modifyObj f oid (fun o => { o with points := r.points })
  let m3 := m2.modifyObj f oid (fun o => { o with labels := r.labels })
  let m4 := match r.box with
            | some b => m3.modifyObj f oid (fun o => { o with box := some b })
            | none => m3
  let m5 := match r.polygon with
            | some p =>
                if decide (3 ≤ p.length) then
                  m4.modifyObj f oid (fun o => { o with polygon := some p })
                else m4
            | none => m4
  m5.modifyObj f oid (fun o => { o with class_name := r.cls })

/-- Loading a list of typed records. -/
def AnnotationModel.loadFull (m : AnnotationModel) (rs : List FullRec) : AnnotationModel :=
  rs.foldl AnnotationModel.applyFull m

/-! ### The SAM2 workflow entry point (`MainWindow.run_sam2`) -/

/-- Ambient conditions and the oracle outcome for one `run_sam2` call.
    `imreadOk` stands for the frame image being present and decodable;
    `oraclePoly` is what `Sam2Service.generate_polygon` (predict followed by
    mask-to-polygon conversion) returns — the empty list when no usable
    contour was produced. -/
structure Sam2Env where
  sam2Present : Bool
  sam2Available : Bool
  cv2Present : Bool
  imreadOk : Bool
  oraclePoly : List (Int × Int)

/-- `MainWindow.run_sam2`, acting on the current video's store at its
    cursor with the current object id. -/
def run_sam2 (env : Sam2Env) (m : AnnotationModel) (oid : Int) : AnnotationModel :=
  if !env.sam2Present then m
  else if !env.sam2Available then m
  else if !env.cv2Present then m
  else
    match m.get_object m.index oid with
    | none => m
    | some obj =>
      if obj.points.isEmpty && !boxValid obj.box then m
      else if !env.imreadOk then m
      else if env.oraclePoly.isEmpty then m
      else m.set_polygon oid (some env.oraclePoly)

/-! ### Saving (`save_annotations`) -/

/-- One iteration of the save loop over the per-video stores: extend the
    combined record list and clear that store's dirty flag. -/
def saveStep (acc : List RawRec × List (String × AnnotationModel))
    (vm : String × AnnotationModel) :
    List RawRec × List (String × AnnotationModel) :=
  (acc.1 ++ vm.2.to_records vm.1, acc.2 ++ [(vm.1, { vm.2 with dirty := false })])

/-- Outcome of `save_annotations`: the stores after the call, the payload
    record list, and whether the file write succeeded. -/
structure SaveOutcome where
  models : List (String × AnnotationModel)
  payload : List RawRec
  written : Bool

/-- `save_annotations`: the loop clears every dirty flag while flattening,
    and only afterwards is the file written — `writeOk` says whether that
    write succeeds; a failure cannot restore the flags. -/
def save_annotations (models : List (String × AnnotationModel)) (writeOk : Bool) :
    SaveOutcome :=
  let r := models.foldl saveStep ([], [])
  { models := r.2, payload := r.1, written := writeOk }

/-! ### Facts about the association-list operations -/

theorem alGet_alEnsure_self {α : Type} (k : Int) (d : α) (l : List (Int × α)) :
    alGet k (alEnsure k d l) = some ((alGet k l).getD d) := by
  unfold alEnsure
  cases h : alGet k l with
  | some v => simp [h]
  | none =>
    simp only [Option.getD_none]
    induction l with
    | nil => simp [alGet]
    | cons e t ih =>
      simp only [alGet] at h ⊢
      by_cases he : e.1 = k
      · simp [he] at h
      · obtain ⟨k2, v2⟩ := e
        simp only at he
        simp [alGet, he] at h ⊢
        exact ih h

theorem alGet_alEnsure_ne {α : Type} (k k2 : Int) (d : α) (l : List (Int × α))
    (hne : k2 ≠ k) : alGet k2 (alEnsure k d l) = alGet k2 l := by
  unfold alEnsure
  cases h : alGet k l with
  | some v => rfl
  | none =>
    induction l with
    | nil => simp [alGet, Ne.symm hne]
    | cons e t ih =>
      obtain ⟨k3, v3⟩ := e
      simp only [alGet] at h ⊢
      by_cases he : k3 = k
      · simp [he] at h
      · simp [he] at h
        by_cases he2 : k3 = k2
        · simp [alGet, he2]
        · simp [alGet, he2]
          exact ih h

theorem alEnsure_of_some {α : Type} (k : Int) (d : α) (l : List (Int × α)) (v : α)
    (h : alGet k l = some v) : alEnsure k d l = l := by
  unfold alEnsure; rw [h]

theorem alEnsure_of_none {α : Type} (k : Int) (d : α) (l : List (Int × α))
    (h : alGet k l = none) : alEnsure k d l = l ++ [(k, d)] := by
  unfold alEnsure; rw [h]

theorem alGet_alModify_self {α : Type} (k : Int) (g : α → α) (l : List (Int × α)) :
    alGet k (alModify k g l) = (alGet k l).map g := by
  induction l with
  | nil => simp [alGet, alModify]
  | cons e t ih =>
    obtain ⟨k2, v2⟩ := e
    by_cases he : k2 = k
    · simp [alGet, alModify, he]
    · simp [alGet, alModify, he, ih]

theorem alGet_alModify_ne {α : Type} (k k2 : Int) (g : α → α) (l : List (Int × α))
    (hne : k2 ≠ k) : alGet k2 (alModify k g l) = alGet k2 l := by
  induction l with
  | nil => simp [alModify]
  | cons e t ih =>
    obtain ⟨k3, v3⟩ := e
    by_cases he : k3 = k
    · subst he
      simp [alGet, alModify, Ne.symm hne, ih]
    · by_cases he2 : k3 = k2
      · simp [alGet, alModify, he, he2, hne]
      · simp [alGet, alModify, he, he2, ih]

theorem alModify_of_none {α : Type} (k : Int) (g : α → α) (l : List (Int × α))
    (h : alGet k l = none) : alModify k g l = l := by
  induction l with
  | nil => rfl
  | cons e t ih =>
    obtain ⟨k2, v2⟩ := e
    simp only [alGet] at h
    by_cases he : k2 = k
    · simp [he] at h
    · simp [he] at h
      simp [alModify, he, ih h]

theorem alModify_eq_self {α : Type} (k : Int) (g : α → α) (l : List (Int × α)) (v : α)
    (hget : alGet k l = some v) (hfix : g v = v) : alModify k g l = l := by
  induction l with
  | nil => simp [alGet] at hget
  | cons e t ih =>
    obtain ⟨k2, v2⟩ := e
    simp only [alGet] at hget
    by_cases he : k2 = k
    · simp [he] at hget
      subst hget
      simp [alModify, he, hfix]
    · simp [he] at hget
      simp [alModify, he, ih hget]

theorem alModify_alModify {α : Type} (k : Int) (g1 g2 : α → α) (l : List (Int × α)) :
    alModify k g2 (alModify k g1 l) = alModify k (fun v => g2 (g1 v)) l := by
  induction l with
  | nil => rfl
  | cons e t ih =>
    obtain ⟨k2, v2⟩ := e
    by_cases he : k2 = k
    · simp [alModify, he]
    · simp [alModify, he, ih]

theorem alModify_append_last {α : Type} (k : Int) (g : α → α) (l : List (Int × α)) (v : α)
    (h : alGet k l = none) : alModify k g (l ++ [(k, v)]) = l ++ [(k, g v)] := by
  induction l with
  | nil => simp [alModify]
  | cons e t ih =>
    obtain ⟨k2, v2⟩ := e
    simp only [alGet] at h
    by_cases he : k2 = k
    · simp [he] at h
    · simp [he] at h
      simp [alModify, he, ih h]

theorem alGet_append_last {α : Type} (k k2 : Int) (l : List (Int × α)) (v : α) :
    alGet k (l ++ [(k2, v)]) =
      match alGet k l with
      | some w => some w
      | none => if k2 = k then some v else none := by
  induction l with
  | nil => simp [alGet]
  | cons e t ih =>
    obtain ⟨k3, v3⟩ := e
    by_cases he : k3 = k
    · simp [alGet, he]
    · simp [alGet, he, ih]

theorem mem_of_alGet {α : Type} (k : Int) (v : α) (l : List (Int × α))
    (h : alGet k l = some v) : (k, v) ∈ l := by
  induction l with
  | nil => simp [alGet] at h
  | cons e t ih =>
    obtain ⟨k2, v2⟩ := e
    simp only [alGet] at h
    by_cases he : k2 = k
    · simp [he] at h
      subst he; subst h
      exact List.mem_cons_self _ _
    · simp [he] at h
      exact List.mem_cons_of_mem _ (ih h)

theorem alGet_of_mem_nodup {α : Type} (k : Int) (v : α) (l : List (Int × α))
    (hnd : (l.map Prod.fst).Nodup) (hmem : (k, v) ∈ l) : alGet k l = some v := by
  induction l with
  | nil => simp at hmem
  | cons e t ih =>
    obtain ⟨k2, v2⟩ := e
    simp only [List.map_cons, List.nodup_cons] at hnd
    obtain ⟨hk2, hndt⟩ := hnd
    rcases List.mem_cons.mp hmem with h1 | h2
    · injection h1 with hk hv
      subst hk; subst hv
      simp [alGet]
    · have hkmem : k ∈ t.map Prod.fst := List.mem_map_of_mem Prod.fst h2
      have hne : k2 ≠ k := fun h => hk2 (h ▸ hkmem)
      simp [alGet, hne, ih hndt h2]

theorem alGet_none_iff_not_mem_keys {α : Type} (k : Int) (l : List (Int × α)) :
    alGet k l = none ↔ k ∉ l.map Prod.fst := by
  induction l with
  | nil => simp [alGet]
  | cons e t ih =>
    obtain ⟨k2, v2⟩ := e
    by_cases he : k2 = k
    · simp [alGet, he]
    · simp [alGet, he, ih, Ne.symm he]

theorem mem_alEnsure {α : Type} (k : Int) (d : α) (l : List (Int × α)) (e : Int × α)
    (h : e ∈ alEnsure k d l) : e ∈ l ∨ e = (k, d) := by
  unfold alEnsure at h
  cases hg : alGet k l with
  | some v => rw [hg] at h; exact Or.inl h
  | none =>
    rw [hg] at h
    rcases List.mem_append.mp h with h1 | h2
    · exact Or.inl h1
    · simp at h2; exact Or.inr h2

theorem mem_alModify {α : Type} (k : Int) (g : α → α) (l : List (Int × α)) (e : Int × α)
    (h : e ∈ alModify k g l) : e ∈ l ∨ ∃ v, (k, v) ∈ l ∧ e = (k, g v) := by
  induction l with
  | nil => simp [alModify] at h
  | cons e2 t ih =>
    obtain ⟨k2, v2⟩ := e2
    by_cases he : k2 = k
    · subst he
      simp only [alModify, if_pos rfl] at h
      rcases List.mem_cons.mp h with h1 | h2
      · exact Or.inr ⟨v2, List.mem_cons_self _ _, h1⟩
      · exact Or.inl (List.mem_cons_of_mem _ h2)
    · simp only [alModify, if_neg he] at h
      rcases List.mem_cons.mp h with h1 | h2
      · exact Or.inl (h1 ▸ List.mem_cons_self _ _)
      · rcases ih h2 with h3 | ⟨v, hv, hev⟩
        · exact Or.inl (List.mem_cons_of_mem _ h3)
        · exact Or.inr ⟨v, List.mem_cons_of_mem _ hv, hev⟩

theorem insInt_perm (x : Int) (l : List Int) : List.Perm (insInt x l) (x :: l) := by
  induction l with
  | nil => exact List.Perm.refl _
  | cons y t ih =>
    by_cases h : x ≤ y
    · simp only [insInt, if_pos h]
      exact List.Perm.refl _
    · simp only [insInt, if_neg h]
      exact List.Perm.trans (List.Perm.cons y ih) (List.Perm.swap x y t)

theorem sortInts_perm (l : List Int) : List.Perm (sortInts l) l := by
  induction l with
  | nil => exact List.Perm.refl _
  | cons y t ih =>
    exact List.Perm.trans (insInt_perm y (sortInts t)) (List.Perm.cons y ih)

theorem mem_sortInts (x : Int) (l : List Int) : x ∈ sortInts l ↔ x ∈ l :=
  (sortInts_perm l).mem_iff

theorem sortInts_nodup (l : List Int) (h : l.Nodup) : (sortInts l).Nodup :=
  ((sortInts_perm l).nodup_iff).mpr h

/-! ### C3: the has-content law -/

/-- Has-content, as the spec phrases it. -/
def SpecHasContent (o : ObjectAnno) : Prop :=
  (∃ x y w h, o.box = some (x, y, w, h) ∧ 0 < w ∧ 0 < h) ∨
  o.points ≠ [] ∨
  (∃ p, o.polygon = some p ∧ 3 ≤ p.length)

theorem boxValid_iff (b : Option (Int × Int × Int × Int)) :
    boxValid b = true ↔ ∃ x y w h, b = some (x, y, w, h) ∧ 0 < w ∧ 0 < h := by
  cases b with
  | none => simp [boxValid]
  | some t =>
    obtain ⟨x, y, w, h⟩ := t
    simp only [boxValid, Bool.and_eq_true, decide_eq_true_eq]
    constructor
    · rintro ⟨hw, hh⟩
      exact ⟨x, y, w, h, rfl, hw, hh⟩
    · rintro ⟨x2, y2, w2, h2, heq, hw, hh⟩
      obtain ⟨rfl, rfl, rfl, rfl⟩ : x = x2 ∧ y = y2 ∧ w = w2 ∧ h = h2 := by
        simpa using heq
      exact ⟨hw, hh⟩

theorem polyBig_iff (p : Option (List (Int × Int))) :
    polyBig p = true ↔ ∃ l, p = some l ∧ 3 ≤ l.length := by
  cases p with
  | none => simp [polyBig]
  | some l =>
    simp only [polyBig, decide_eq_true_eq]
    constructor
    · intro h; exact ⟨l, rfl, h⟩
    · rintro ⟨l2, heq, hlen⟩
      obtain rfl : l = l2 := by simpa using heq
      exact hlen

theorem hasContent_iff (o : ObjectAnno) : hasContent o = true ↔ SpecHasContent o := by
  unfold hasContent SpecHasContent
  rw [Bool.or_eq_true, Bool.or_eq_true, boxValid_iff, polyBig_iff]
  constructor
  · rintro ((h | h) | h)
    · exact Or.inl h
    · refine Or.inr (Or.inl ?_)
      simpa [List.isEmpty_iff] using h
    · exact Or.inr (Or.inr h)
  · rintro (h | h | h)
    · exact Or.inl (Or.inl h)
    · refine Or.inl (Or.inr ?_)
      simpa [List.isEmpty_iff] using h
    · exact Or.inr h

/-- C3: `is_frame_annotated(f)` is true iff some object on frame f has a
    valid box (w>0 and h>0), at least one point, or a polygon with at least
    3 vertices; an object whose only data is a class name does not count,
    and after `setBox(1,0,0,5,5)` then `setBox(1,0,0,0,0)` the stored
    zero-area box does not make the frame annotated. -/
theorem C3_has_content_law :
    (∀ (m : AnnotationModel) (f : Int),
        m.is_frame_annotated f = true ↔
          ∃ fr, alGet f m.ann = some fr ∧ ∃ e ∈ fr.objects, SpecHasContent e.2) ∧
    ((AnnotationModel.init []).set_class 1 (some "fish")).is_frame_annotated 0 = false ∧
    (((AnnotationModel.init []).set_box 1 0 0 5 5).set_box 1 0 0 0 0).is_frame_annotated 0
        = false ∧
    (((AnnotationModel.init []).set_box 1 0 0 5 5).set_box 1 0 0 0 0).get_object 0 1
        = some { box := some (0, 0, 0, 0), points := [], labels := [],
                 polygon := none, class_name := none } := by
  refine ⟨?_, by decide, by decide, by decide⟩
  intro m f
  unfold AnnotationModel.is_frame_annotated
  cases h : alGet f m.ann with
  | none => simp
  | some fr =>
    simp only [List.any_eq_true, hasContent_iff, Option.some.injEq]
    constructor
    · rintro ⟨e, hmem, hc⟩
      exact ⟨fr, rfl, e, hmem, hc⟩
    · rintro ⟨fr2, hfr2, e, hmem, hc⟩
      obtain rfl : fr2 = fr := by simpa using hfr2.symm
      exact ⟨e, hmem, hc⟩

/-! ### C4: remove_point -/

theorem removeFirstMatch_spec (x y lab : Int) (ps : List (Int × Int)) (ls : List Int) :
    removeFirstMatch x y lab ps ls =
      match (ps.zip ls).findIdx? (fun z => decide (z = ((x, y), lab))) with
      | none => none
      | some i => some (ps.eraseIdx i, ls.eraseIdx i) := by
  induction ps generalizing ls with
  | nil => cases ls <;> rfl
  | cons p pt ih =>
    cases ls with
    | nil => rfl
    | cons l lt =>
      obtain ⟨px, py⟩ := p
      by_cases hm : ((px, py), l) = ((x, y), lab)
      · have h1 : (px = x ∧ py = y) ∧ l = lab := by
          simpa [Prod.ext_iff] using hm
        obtain ⟨⟨rfl, rfl⟩, rfl⟩ := h1
        simp [removeFirstMatch, List.findIdx?_cons]
      · have hnm : ¬(px = x ∧ py = y ∧ l = lab) := by
          intro hc
          exact hm (by simp [hc.1, hc.2.1, hc.2.2])
        have hb : (decide (px = x) && decide (py = y) && decide (l = lab)) = false := by
          simp only [Bool.and_eq_false_iff, decide_eq_false_iff_not]
          tauto
        have hpred : (decide ((((px, py), l) : (Int × Int) × Int) = ((x, y), lab))) = false := by
          simp [hm]
        simp only [removeFirstMatch, hb, if_false, List.zip_cons_cons, List.findIdx?_cons,
          hpred, ih]
        cases hf : (pt.zip lt).findIdx? (fun z => decide (z = ((x, y), lab))) with
        | none => simp [hf]
        | some i => simp [hf]

theorem ensureObj_dirty (m : AnnotationModel) (f oid : Int) :
    (m.ensureObj f oid).dirty = m.dirty := rfl

theorem ensureObj_index (m : AnnotationModel) (f oid : Int) :
    (m.ensureObj f oid).index = m.index := rfl

theorem ensureObj_frames (m : AnnotationModel) (f oid : Int) :
    (m.ensureObj f oid).frames = m.frames := rfl

theorem modifyObj_dirty (m : AnnotationModel) (f oid : Int) (g : ObjectAnno → ObjectAnno) :
    (m.modifyObj f oid g).dirty = m.dirty := rfl

theorem modifyObj_index (m : AnnotationModel) (f oid : Int) (g : ObjectAnno → ObjectAnno) :
    (m.modifyObj f oid g).index = m.index := rfl

theorem get_object_some_elim (m : AnnotationModel) (f oid : Int) (o : ObjectAnno)
    (h : m.get_object f oid = some o) :
    ∃ fr, alGet f m.ann = some fr ∧ alGet oid fr.objects = some o := by
  unfold AnnotationModel.get_object at h
  cases hfr : alGet f m.ann with
  | none => rw [hfr] at h; simp at h
  | some fr => rw [hfr] at h; exact ⟨fr, rfl, h⟩

theorem ensureObj_ann (m : AnnotationModel) (f oid : Int) :
    (m.ensureObj f oid).ann =
      alModify f (fun fr => fr.ensure_object oid) (alEnsure f {} m.ann) := rfl

theorem ensureObj_ann_self (m : AnnotationModel) (f oid : Int) :
    alGet f (m.ensureObj f oid).ann =
      some (((alGet f m.ann).getD {}).ensure_object oid) := by
  rw [ensureObj_ann, alGet_alModify_self, alGet_alEnsure_self, Option.map_some']

theorem ensureObj_ann_ne (m : AnnotationModel) (f oid f2 : Int) (h : f2 ≠ f) :
    alGet f2 (m.ensureObj f oid).ann = alGet f2 m.ann := by
  rw [ensureObj_ann, alGet_alModify_ne f f2 _ _ h, alGet_alEnsure_ne f f2 _ _ h]

theorem ensure_object_objects_self (fr : FrameAnno) (oid : Int) :
    alGet oid (fr.ensure_object oid).objects = some ((alGet oid fr.objects).getD {}) := by
  unfold FrameAnno.ensure_object
  exact alGet_alEnsure_self oid {} fr.objects

theorem ensure_object_objects_ne (fr : FrameAnno) (oid o2 : Int) (h : o2 ≠ oid) :
    alGet o2 (fr.ensure_object oid).objects = alGet o2 fr.objects := by
  unfold FrameAnno.ensure_object
  exact alGet_alEnsure_ne oid o2 _ _ h

theorem ensureObj_of_present (m : AnnotationModel) (f oid : Int) (o : ObjectAnno)
    (h : m.get_object f oid = some o) : m.ensureObj f oid = m := by
  obtain ⟨fr, hfr, hobj⟩ := get_object_some_elim m f oid o h
  have hfix : fr.ensure_object oid = fr := by
    unfold FrameAnno.ensure_object
    rw [alEnsure_of_some oid {} fr.objects o hobj]
  show { m with ann := alModify f (fun fr => fr.ensure_object oid) (alEnsure f {} m.ann) } = m
  rw [alEnsure_of_some f {} m.ann fr hfr,
    alModify_eq_self f (fun fr => fr.ensure_object oid) m.ann fr hfr hfix]

theorem get_object_ensureObj_self (m : AnnotationModel) (f oid : Int) :
    (m.ensureObj f oid).get_object f oid = some ((m.get_object f oid).getD {}) := by
  unfold AnnotationModel.get_object
  rw [ensureObj_ann_self]
  cases hfr : alGet f m.ann with
  | none =>
    simp only [Option.getD_none, Option.getD_some]
    rw [ensure_object_objects_self]
    rfl
  | some fr =>
    simp only [Option.getD_some]
    rw [ensure_object_objects_self]

theorem get_object_ensureObj_ne (m : AnnotationModel) (f oid f2 o2 : Int)
    (h : ¬(f2 = f ∧ o2 = oid)) :
    (m.ensureObj f oid).get_object f2 o2 = m.get_object f2 o2 := by
  unfold AnnotationModel.get_object
  by_cases hf : f2 = f
  · subst hf
    have ho : o2 ≠ oid := fun hc => h ⟨rfl, hc⟩
    rw [ensureObj_ann_self]
    cases hfr : alGet f2 m.ann with
    | none =>
      simp only [Option.getD_none]
      rw [ensure_object_objects_ne _ _ _ ho]
      rfl
    | some fr =>
      simp only [Option.getD_some]
      rw [ensure_object_objects_ne _ _ _ ho]
  · rw [ensureObj_ann_ne m f oid f2 hf]

theorem modifyObj_ann (m : AnnotationModel) (f oid : Int) (g : ObjectAnno → ObjectAnno) :
    (m.modifyObj f oid g).ann =
      alModify f (fun fr => { fr with objects := alModify oid g fr.objects }) m.ann := rfl

theorem get_object_modifyObj_self (m : AnnotationModel) (f oid : Int)
    (g : ObjectAnno → ObjectAnno) :
    (m.modifyObj f oid g).get_object f oid = (m.get_object f oid).map g := by
  unfold AnnotationModel.get_object
  rw [modifyObj_ann, alGet_alModify_self]
  cases hfr : alGet f m.ann with
  | none => rfl
  | some fr =>
    simp only [Option.map_some']
    rw [alGet_alModify_self]

theorem get_object_modifyObj_ne (m : AnnotationModel) (f oid f2 o2 : Int)
    (g : ObjectAnno → ObjectAnno) (h : ¬(f2 = f ∧ o2 = oid)) :
    (m.modifyObj f oid g).get_object f2 o2 = m.get_object f2 o2 := by
  unfold AnnotationModel.get_object
  by_cases hf : f2 = f
  · subst hf
    have ho : o2 ≠ oid := fun hc => h ⟨rfl, hc⟩
    rw [modifyObj_ann, alGet_alModify_self]
    cases hfr : alGet f2 m.ann with
    | none => rfl
    | some fr =>
      simp only [Option.map_some']
      rw [alGet_alModify_ne oid o2 g _ ho]
  · rw [modifyObj_ann, alGet_alModify_ne f f2 _ _ hf]

theorem modifyObj_modifyObj (m : AnnotationModel) (f oid : Int)
    (g1 g2 : ObjectAnno → ObjectAnno) :
    (m.modifyObj f oid g1).modifyObj f oid g2 = m.modifyObj f oid (fun o => g2 (g1 o)) := by
  show { m with ann := alModify f _ (alModify f _ m.ann) } =
    { m with ann := alModify f _ m.ann }
  simp only [alModify_alModify]

theorem modifyObj_of_fixpoint (m : AnnotationModel) (f oid : Int)
    (g : ObjectAnno → ObjectAnno) (o : ObjectAnno)
    (hget : m.get_object f oid = some o) (hfix : g o = o) : m.modifyObj f oid g = m := by
  obtain ⟨fr, hfr, hobj⟩ := get_object_some_elim m f oid o hget
  have hfix2 : { fr with objects := alModify oid g fr.objects } = fr := by
    rw [alModify_eq_self oid g fr.objects o hobj hfix]
  show { m with ann := alModify f (fun fr => { fr with objects := alModify oid g fr.objects }) m.ann } = m
  rw [alModify_eq_self f _ m.ann fr hfr hfix2]

theorem getObjD_eq (m : AnnotationModel) (f oid : Int) :
    m.getObjD f oid = (m.get_object f oid).getD {} := by
  unfold AnnotationModel.getObjD AnnotationModel.get_object
  cases alGet f m.ann <;> rfl

/-- C4 (amended): when the target object exists, `remove_point` with no
    exact (x,y,label) match returns false and leaves the store fully
    unchanged, and with matches present it deletes exactly the first match
    in insertion order (with its parallel label), returns true and sets the
    dirty flag; when the target object does not exist, it still returns
    false and leaves the dirty flag alone, but it materialises an empty
    object entry (`ensure_object`), an observable mutation. -/
theorem C4_remove_point_amended :
    ∀ (m : AnnotationModel) (oid x y lab : Int),
      (∀ o, m.get_object m.index oid = some o →
        (((o.points.zip o.labels).findIdx? (fun z => decide (z = ((x, y), lab))) = none →
            m.remove_point oid x y lab = (m, false)) ∧
         (∀ i, (o.points.zip o.labels).findIdx? (fun z => decide (z = ((x, y), lab))) = some i →
            m.remove_point oid x y lab =
              ({ (m.modifyObj m.index oid fun _ =>
                   { o with points := o.points.eraseIdx i, labels := o.labels.eraseIdx i })
                   with dirty := true }, true)))) ∧
      (m.get_object m.index oid = none →
        (m.remove_point oid x y lab).2 = false ∧
        (m.remove_point oid x y lab).1.dirty = m.dirty ∧
        (m.remove_point oid x y lab).1 = m.ensureObj m.index oid) := by
  intro m oid x y lab
  constructor
  · intro o hO
    have hens : m.ensureObj m.index oid = m := ensureObj_of_present m m.index oid o hO
    have hD : m.getObjD m.index oid = o := by rw [getObjD_eq, hO]; rfl
    constructor
    · intro hnone
      have hrm : removeFirstMatch x y lab o.points o.labels = none := by
        rw [removeFirstMatch_spec, hnone]
      unfold AnnotationModel.remove_point
      simp only [hens, hD, ObjectAnno.remove_point, hrm]
      rw [modifyObj_of_fixpoint m m.index oid _ o hO rfl]
      simp
    · intro i hsome
      have hrm : removeFirstMatch x y lab o.points o.labels
          = some (o.points.eraseIdx i, o.labels.eraseIdx i) := by
        rw [removeFirstMatch_spec, hsome]
      unfold AnnotationModel.remove_point
      simp only [hens, hD, ObjectAnno.remove_point, hrm]
      simp
  · intro hO
    have hD : (m.ensureObj m.index oid).getObjD m.index oid = ({} : ObjectAnno) := by
      rw [getObjD_eq, get_object_ensureObj_self, hO]
      rfl
    have hfix : ((m.ensureObj m.index oid).modifyObj m.index oid fun _ => ({} : ObjectAnno))
        = m.ensureObj m.index oid := by
      apply modifyObj_of_fixpoint _ _ _ _ ({} : ObjectAnno) _ rfl
      rw [get_object_ensureObj_self, hO]
      rfl
    have hrm : removeFirstMatch x y lab ({} : ObjectAnno).points ({} : ObjectAnno).labels
        = none := rfl
    unfold AnnotationModel.remove_point
    simp only [hD, ObjectAnno.remove_point, hrm, hfix]
    exact ⟨trivial, ensureObj_dirty m m.index oid, rfl⟩

/-- C4 fails as stated: on a fresh store, removing a never-present point
    returns false, yet the store is mutated — an empty object entry appears
    and `get_object` changes from none to an empty annotation. -/
theorem C4_counterexample :
    (((AnnotationModel.init []).remove_point 5 0 0 1).2 = false) ∧
    ((AnnotationModel.init []).remove_point 5 0 0 1).1 ≠ AnnotationModel.init [] ∧
    ((AnnotationModel.init []).remove_point 5 0 0 1).1.get_object 0 5 = some {} ∧
    (AnnotationModel.init []).get_object 0 5 = none := by
  refine ⟨by decide, by decide, by decide, by decide⟩

theorem C4_remove_point_witness :
    ((AnnotationModel.init []).remove_point 5 0 0 1).1 = (AnnotationModel.init []).ensureObj 0 5 ∧
    (((AnnotationModel.init []).add_point 1 2 3 1).remove_point 1 2 3 1).2 = true := by
  constructor
  · exact ((C4_remove_point_amended (AnnotationModel.init []) 5 0 0 1).2 (by decide)).2.2
  · have h := ((C4_remove_point_amended ((AnnotationModel.init []).add_point 1 2 3 1) 1 2 3 1).1
      { box := none, points := [(2, 3)], labels := [1], polygon := none, class_name := none }
      (by decide)).2 0 (by decide)
    rw [h]

/-! ### Loading encoded records -/

theorem parsePair_encPoint (p : Int × Int) : parsePair (encPoint p) = some p := rfl

theorem mapM_parsePair_encPoint (ps : List (Int × Int)) :
    parseAll parsePair (ps.map encPoint) = some ps := by
  induction ps with
  | nil => rfl
  | cons p pt ih => simp [parseAll, parsePair_encPoint, ih]

theorem mapM_pyToInt_jint (ls : List Int) : parseAll pyToInt (ls.map jint) = some ls := by
  induction ls with
  | nil => rfl
  | cons l lt ih => simp [parseAll, pyToInt, ih]

theorem parsePoints_enc (ps : List (Int × Int)) :
    parsePoints (orEmptyList (some (jlist (ps.map encPoint)))) = some ps := by
  cases ps with
  | nil => rfl
  | cons p pt =>
    have ht : pyTruthy (jlist ((p :: pt).map encPoint)) = true := rfl
    unfold orEmptyList
    simp only [Option.getD_some, ht, if_true]
    exact mapM_parsePair_encPoint (p :: pt)

theorem parseLabels_enc (ls : List Int) :
    parseLabels (orEmptyList (some (jlist (ls.map jint)))) = some ls := by
  cases ls with
  | nil => rfl
  | cons l lt =>
    have ht : pyTruthy (jlist ((l :: lt).map jint)) = true := rfl
    unfold orEmptyList
    simp only [Option.getD_some, ht, if_true]
    exact mapM_pyToInt_jint (l :: lt)

theorem parseBoxField_none : parseBoxField none = some none := rfl

theorem parseBoxField_enc (b : Int × Int × Int × Int) :
    parseBoxField (some (jlist [jint b.1, jint b.2.1, jint b.2.2.1, jint b.2.2.2]))
      = some (some b) := rfl

theorem parsePolyField_none : parsePolyField none = some none := rfl

theorem parsePolyField_enc (p : List (Int × Int)) :
    parsePolyField (some (jlist (p.map encPoint)))
      = if 3 ≤ p.length then some (some p) else some none := by
  unfold parsePolyField
  simp only [Option.getD_some, List.length_map]
  by_cases h3 : 3 ≤ p.length
  · simp [h3, mapM_parsePair_encPoint]
  · simp [h3]

theorem loadRec_encode (m : AnnotationModel) (r : FullRec) :
    m.loadRec r.encode = m.applyFull r := by
  unfold AnnotationModel.loadRec FullRec.encode AnnotationModel.applyFull
  simp only [Option.getD_some, pyToInt, parsePoints_enc, parseLabels_enc]
  cases hb : r.box with
  | none =>
    simp only [Option.map_none', parseBoxField_none]
    cases hp : r.polygon with
    | none => simp [parsePolyField_none]
    | some p =>
      simp only [Option.map_some', parsePolyField_enc]
      by_cases h3 : 3 ≤ p.length
      · simp [h3]
      · simp [h3]
  | some b =>
    simp only [Option.map_some', parseBoxField_enc]
    cases hp : r.polygon with
    | none => simp [parsePolyField_none]
    | some p =>
      simp only [Option.map_some', parsePolyField_enc]
      by_cases h3 : 3 ≤ p.length
      · simp [h3]
      · simp [h3]

theorem load_records_encode (m : AnnotationModel) (rs : List FullRec) :
    m.load_records (rs.map FullRec.encode) = m.loadFull rs := by
  induction rs generalizing m with
  | nil => rfl
  | cons r rt ih =>
    show (m.loadRec r.encode).load_records (rt.map FullRec.encode) = (m.applyFull r).loadFull rt
    rw [loadRec_encode, ih]

/-- The object value produced by loading one typed record over a previous
    object state `o`: points, labels and class are overwritten, box and
    polygon only when the record carries a well-shaped one. -/
def applyObj (o : ObjectAnno) (r : FullRec) : ObjectAnno :=
  { box := match r.box with
           | some b => some b
           | none => o.box,
    points := r.points,
    labels := r.labels,
    polygon := match r.polygon with
               | some p => if decide (3 ≤ p.length) then some p else o.polygon
               | none => o.polygon,
    class_name := r.cls }

theorem applyFull_eq_modify (m : AnnotationModel) (r : FullRec) :
    m.applyFull r = (m.ensureObj r.frame_idx r.obj_id).modifyObj r.frame_idx r.obj_id
      (fun o => applyObj o r) := by
  unfold AnnotationModel.applyFull
  cases hb : r.box with
  | none =>
    cases hp : r.polygon with
    | none =>
      simp only [modifyObj_modifyObj]
      congr 1
      funext o
      simp [applyObj, hb, hp]
    | some p =>
      by_cases h3 : 3 ≤ p.length
      · have hd : decide (3 ≤ p.length) = true := by simp [h3]
        simp only [hd, if_true, modifyObj_modifyObj]
        congr 1
        funext o
        simp [applyObj, hb, hp, h3]
      · have hd : decide (3 ≤ p.length) = false := by simp [h3]
        simp only [hd, Bool.false_eq_true, if_false, modifyObj_modifyObj]
        congr 1
        funext o
        simp [applyObj, hb, hp, h3]
  | some b =>
    cases hp : r.polygon with
    | none =>
      simp only [modifyObj_modifyObj]
      congr 1
      funext o
      simp [applyObj, hb, hp]
    | some p =>
      by_cases h3 : 3 ≤ p.length
      · have hd : decide (3 ≤ p.length) = true := by simp [h3]
        simp only [hd, if_true, modifyObj_modifyObj]
        congr 1
        funext o
        simp [applyObj, hb, hp, h3]
      · have hd : decide (3 ≤ p.length) = false := by simp [h3]
        simp only [hd, Bool.false_eq_true, if_false, modifyObj_modifyObj]
        congr 1
        funext o
        simp [applyObj, hb, hp, h3]

theorem get_object_applyFull_self (m : AnnotationModel) (r : FullRec) :
    (m.applyFull r).get_object r.frame_idx r.obj_id =
      some (applyObj ((m.get_object r.frame_idx r.obj_id).getD {}) r) := by
  rw [applyFull_eq_modify, get_object_modifyObj_self, get_object_ensureObj_self]
  rfl

theorem get_object_applyFull_ne (m : AnnotationModel) (r : FullRec) (f2 o2 : Int)
    (h : ¬(f2 = r.frame_idx ∧ o2 = r.obj_id)) :
    (m.applyFull r).get_object f2 o2 = m.get_object f2 o2 := by
  rw [applyFull_eq_modify, get_object_modifyObj_ne _ _ _ _ _ _ h,
    get_object_ensureObj_ne _ _ _ _ _ h]

theorem get_object_init (L : List String) (f oid : Int) :
    (AnnotationModel.init L).get_object f oid = none := rfl

/-- C2 (amended): when two well-formed records for the same (frame, object)
    pair are loaded in order into a fresh store, the later record overwrites
    the object's points, labels and class wholesale, while box and polygon
    are overwritten only when the later record itself carries a well-shaped
    one (a 4-element box; a polygon with at least 3 vertices) — otherwise
    the value set by the earlier record is retained, not cleared.  `applyObj`
    spells out this per-field rule. -/
theorem C2_duplicate_records_amended :
    ∀ (L : List String) (r1 r2 : FullRec),
      r1.frame_idx = r2.frame_idx → r1.obj_id = r2.obj_id →
      ((AnnotationModel.init L).load_records [r1.encode, r2.encode]).get_object
          r2.frame_idx r2.obj_id =
        some (applyObj (applyObj {} r1) r2) ∧
      (applyObj (applyObj {} r1) r2).points = r2.points ∧
      (applyObj (applyObj {} r1) r2).labels = r2.labels ∧
      (applyObj (applyObj {} r1) r2).class_name = r2.cls := by
  intro L r1 r2 hf ho
  refine ⟨?_, rfl, rfl, rfl⟩
  have hload : (AnnotationModel.init L).load_records [r1.encode, r2.encode]
      = ((AnnotationModel.init L).applyFull r1).applyFull r2 := by
    have := load_records_encode (AnnotationModel.init L) [r1, r2]
    simpa [AnnotationModel.loadFull] using this
  rw [hload, get_object_applyFull_self]
  have h1 : ((AnnotationModel.init L).applyFull r1).get_object r2.frame_idx r2.obj_id
      = some (applyObj {} r1) := by
    rw [← hf, ← ho, get_object_applyFull_self, get_object_init]
    rfl
  rw [h1]
  rfl

/-- C2 fails as stated: a later record for the same (frame, object) that
    carries no box does not clear the earlier record's box — the box is
    retained, not wholesale-replaced. -/
theorem C2_counterexample :
    ((AnnotationModel.init []).load_records
        [{ frame_idx := some (jint 0), obj_id := some (jint 1),
           box := some (jlist [jint 0, jint 0, jint 5, jint 5]) },
         { frame_idx := some (jint 0), obj_id := some (jint 1),
           points := some (jlist [jlist [jint 1, jint 2]]),
           labels := some (jlist [jint 1]) }]).get_object 0 1 =
      some { box := some (0, 0, 5, 5), points := [(1, 2)], labels := [1],
             polygon := none, class_name := none } := by decide

theorem C2_witness :
    ((AnnotationModel.init []).load_records
        [FullRec.encode { video_id := "v", frame_idx := 0, obj_id := 1, points := [],
                          labels := [], cls := none, box := some (0, 0, 5, 5),
                          polygon := none },
         FullRec.encode { video_id := "v", frame_idx := 0, obj_id := 1,
                          points := [(1, 2)], labels := [1], cls := none, box := none,
                          polygon := none }]).get_object 0 1 =
      some (applyObj
        (applyObj {} { video_id := "v", frame_idx := 0, obj_id := 1, points := [],
                       labels := [], cls := none, box := some (0, 0, 5, 5),
                       polygon := none })
        { video_id := "v", frame_idx := 0, obj_id := 1, points := [(1, 2)],
          labels := [1], cls := none, box := none, polygon := none }) :=
  (C2_duplicate_records_amended []
    { video_id := "v", frame_idx := 0, obj_id := 1, points := [], labels := [],
      cls := none, box := some (0, 0, 5, 5), polygon := none }
    { video_id := "v", frame_idx := 0, obj_id := 1, points := [(1, 2)], labels := [1],
      cls := none, box := none, polygon := none } rfl rfl).1

/-! ### C5: the parallel points/labels lengths invariant -/

/-- Every object of every frame has as many labels as points. -/
def LenInv (m : AnnotationModel) : Prop :=
  ∀ e ∈ m.ann, ∀ e2 ∈ e.2.objects, e2.2.points.length = e2.2.labels.length

theorem LenInv_ann (m m2 : AnnotationModel) (h : m2.ann = m.ann) (hm : LenInv m) :
    LenInv m2 := by
  intro e he
  exact hm e (h ▸ he)

theorem LenInv_ensureObj (m : AnnotationModel) (f oid : Int) (hm : LenInv m) :
    LenInv (m.ensureObj f oid) := by
  intro e he e2 he2
  rw [ensureObj_ann] at he
  rcases mem_alModify _ _ _ _ he with he1 | ⟨fr, hfr, rfl⟩
  · rcases mem_alEnsure _ _ _ _ he1 with horig | rfl
    · exact hm _ horig _ he2
    · exact absurd he2 (List.not_mem_nil e2)
  · simp only [FrameAnno.ensure_object] at he2
    rcases mem_alEnsure _ _ _ _ hfr with horig | heq
    · rcases mem_alEnsure _ _ _ _ he2 with h2 | rfl
      · exact hm _ horig _ h2
      · rfl
    · injection heq with hk hv
      subst hv
      rcases mem_alEnsure _ _ _ _ he2 with h2 | rfl
      · exact absurd h2 (List.not_mem_nil e2)
      · rfl

theorem LenInv_modifyObj (m : AnnotationModel) (f oid : Int)
    (g : ObjectAnno → ObjectAnno) (hm : LenInv m)
    (hg : ∀ o, o.points.length = o.labels.length →
      (g o).points.length = (g o).labels.length) :
    LenInv (m.modifyObj f oid g) := by
  intro e he e2 he2
  rw [modifyObj_ann] at he
  rcases mem_alModify _ _ _ _ he with he1 | ⟨fr, hfr, rfl⟩
  · exact hm _ he1 _ he2
  · rcases mem_alModify _ _ _ _ he2 with h2 | ⟨v, hv, rfl⟩
    · exact hm _ hfr _ h2
    · exact hg v (hm _ hfr _ hv)

theorem removeFirstMatch_lengths (x y lab : Int) (ps : List (Int × Int)) (ls : List Int)
    (ps2 : List (Int × Int)) (ls2 : List Int)
    (h : removeFirstMatch x y lab ps ls = some (ps2, ls2))
    (hlen : ps.length = ls.length) : ps2.length = ls2.length := by
  induction ps generalizing ls ps2 ls2 with
  | nil => simp [removeFirstMatch] at h
  | cons p pt ih =>
    cases ls with
    | nil => simp [removeFirstMatch] at h
    | cons l lt =>
      obtain ⟨px, py⟩ := p
      simp only [removeFirstMatch] at h
      by_cases hb : (decide (px = x) && decide (py = y) && decide (l = lab)) = true
      · rw [if_pos hb] at h
        injection h with h2
        injection h2 with h3 h4
        subst h3; subst h4
        simpa using hlen
      · rw [if_neg hb] at h
        cases hr : removeFirstMatch x y lab pt lt with
        | none => rw [hr] at h; exact absurd h (by simp)
        | some pr =>
          obtain ⟨pr1, pr2⟩ := pr
          rw [hr] at h
          injection h with h2
          injection h2 with h3 h4
          subst h3; subst h4
          have := ih lt pr1 pr2 hr (by simpa using hlen)
          simpa using this

theorem getObjD_lengths (m : AnnotationModel) (f oid : Int) (hm : LenInv m) :
    (m.getObjD f oid).points.length = (m.getObjD f oid).labels.length := by
  rw [getObjD_eq]
  cases hg : m.get_object f oid with
  | none => rfl
  | some o =>
    obtain ⟨fr, hfr, hobj⟩ := get_object_some_elim m f oid o hg
    exact hm _ (mem_of_alGet _ _ _ hfr) _ (mem_of_alGet _ _ _ hobj)

theorem remove_point_out_lengths (o : ObjectAnno) (x y lab : Int)
    (h : o.points.length = o.labels.length) :
    (o.remove_point x y lab).1.points.length = (o.remove_point x y lab).1.labels.length := by
  unfold ObjectAnno.remove_point
  cases hr : removeFirstMatch x y lab o.points o.labels with
  | none => simpa using h
  | some pr =>
    obtain ⟨ps2, ls2⟩ := pr
    simpa using removeFirstMatch_lengths x y lab o.points o.labels ps2 ls2 hr h

theorem remove_point_fst_ann (m : AnnotationModel) (oid x y lab : Int) :
    (m.remove_point oid x y lab).1.ann =
      ((m.ensureObj m.index oid).modifyObj m.index oid
        (fun _ => (((m.ensureObj m.index oid).getObjD m.index oid).remove_point x y lab).1)).ann := by
  unfold AnnotationModel.remove_point
  by_cases h : (((m.ensureObj m.index oid).getObjD m.index oid).remove_point x y lab).2 = true
  · simp [h]
  · simp [h]

theorem LenInv_applyFull (m : AnnotationModel) (r : FullRec) (hm : LenInv m)
    (hr : r.points.length = r.labels.length) : LenInv (m.applyFull r) := by
  rw [applyFull_eq_modify]
  exact LenInv_modifyObj _ _ _ _ (LenInv_ensureObj m _ _ hm) (fun o _ => by simp [applyObj, hr])

theorem LenInv_loadFull (m : AnnotationModel) (rs : List FullRec) (hm : LenInv m)
    (hrs : ∀ r ∈ rs, r.points.length = r.labels.length) : LenInv (m.loadFull rs) := by
  induction rs generalizing m with
  | nil => exact hm
  | cons r rt ih =>
    exact ih (m.applyFull r) (LenInv_applyFull m r hm (hrs r (List.mem_cons_self r rt)))
      (fun r2 h2 => hrs r2 (List.mem_cons_of_mem r h2))

/-- C5 (amended): the equal-lengths invariant for the parallel point and
    label sequences is preserved by all six store mutations, and by
    `load_records` on any list of well-formed records whose points and
    labels have equal lengths (all `to_records` output is of this shape);
    an arbitrary record list, however, can break it — see the
    counterexample. -/
theorem C5_parallel_lengths_amended :
    ∀ (m : AnnotationModel), LenInv m →
      (∀ oid x y lab, LenInv (m.add_point oid x y lab)) ∧
      (∀ oid x y lab, LenInv (m.remove_point oid x y lab).1) ∧
      (∀ oid x y w h, LenInv (m.set_box oid x y w h)) ∧
      (∀ oid p, LenInv (m.set_polygon oid p)) ∧
      (∀ oid nm, LenInv (m.set_class oid nm)) ∧
      (∀ oid, LenInv (m.clear_object oid)) ∧
      (∀ rs : List FullRec, (∀ r ∈ rs, r.points.length = r.labels.length) →
        LenInv (m.load_records (rs.map FullRec.encode))) := by
  intro m hm
  refine ⟨?_, ?_, ?_, ?_, ?_, ?_, ?_⟩
  · intro oid x y lab
    refine LenInv_ann _ _ rfl (LenInv_modifyObj _ _ _ _ (LenInv_ensureObj m _ _ hm) ?_)
    intro o h
    simp [ObjectAnno.add_point, h]
  · intro oid x y lab
    have hm1 : LenInv (m.ensureObj m.index oid) := LenInv_ensureObj m _ _ hm
    have hP := remove_point_out_lengths ((m.ensureObj m.index oid).getObjD m.index oid)
      x y lab (getObjD_lengths _ _ _ hm1)
    exact LenInv_ann _ _ (remove_point_fst_ann m oid x y lab)
      (LenInv_modifyObj _ _ _ _ hm1 (fun o _ => hP))
  · intro oid x y w h
    refine LenInv_ann _ _ rfl (LenInv_modifyObj _ _ _ _ (LenInv_ensureObj m _ _ hm) ?_)
    intro o h2
    simpa [ObjectAnno.set_box] using h2
  · intro oid p
    refine LenInv_ann _ _ rfl (LenInv_modifyObj _ _ _ _ (LenInv_ensureObj m _ _ hm) ?_)
    intro o h2
    cases p with
    | none => simpa [ObjectAnno.set_polygon] using h2
    | some l =>
      by_cases he : l.isEmpty
      · simpa [ObjectAnno.set_polygon, he] using h2
      · simpa [ObjectAnno.set_polygon, he] using h2
  · intro oid nm
    refine LenInv_ann _ _ rfl (LenInv_modifyObj _ _ _ _ (LenInv_ensureObj m _ _ hm) ?_)
    intro o h2
    simpa [ObjectAnno.set_class] using h2
  · intro oid
    unfold AnnotationModel.clear_object
    cases hfr : alGet m.index m.ann with
    | none => exact hm
    | some fr =>
      dsimp only
      cases hob : alGet oid fr.objects with
      | none => exact hm
      | some o =>
        dsimp only
        exact LenInv_ann _ _ rfl (LenInv_modifyObj m _ _ _ hm (fun o2 _ => rfl))
  · intro rs hrs
    rw [load_records_encode]
    exact LenInv_loadFull m rs hm hrs

/-- C5 fails as stated for `load_records` on arbitrary input: a record whose
    points and labels lists have different lengths is loaded as-is, breaking
    the parallel-lengths invariant. -/
theorem C5_counterexample :
    (((AnnotationModel.init []).load_records
        [{ frame_idx := some (jint 0), obj_id := some (jint 1),
           points := some (jlist [jlist [jint 1, jint 2]]) }]).get_object 0 1).map
        (fun o => (o.points.length, o.labels.length)) = some (1, 0) ∧
    ¬ LenInv ((AnnotationModel.init []).load_records
        [{ frame_idx := some (jint 0), obj_id := some (jint 1),
           points := some (jlist [jlist [jint 1, jint 2]]) }]) := by
  constructor
  · decide
  · intro h
    have h2 := h
      (0, { objects := [(1, { box := none, points := [(1, 2)], labels := [], polygon := none, class_name := none })] })
      (by decide)
      (1, { box := none, points := [(1, 2)], labels := [], polygon := none, class_name := none })
      (by decide)
    exact absurd h2 (by decide)

theorem C5_witness :
    LenInv ((AnnotationModel.init []).add_point 1 2 3 1) ∧
    LenInv ((AnnotationModel.init []).load_records
      [FullRec.encode { video_id := "v", frame_idx := 0, obj_id := 1,
                        points := [(2, 3)], labels := [1], cls := none, box := none,
                        polygon := none }]) := by
  constructor
  · exact (C5_parallel_lengths_amended (AnnotationModel.init [])
      (fun e he => absurd he (List.not_mem_nil e))).1 1 2 3 1
  · exact (C5_parallel_lengths_amended (AnnotationModel.init [])
      (fun e he => absurd he (List.not_mem_nil e))).2.2.2.2.2.2
      [{ video_id := "v", frame_idx := 0, obj_id := 1, points := [(2, 3)], labels := [1],
         cls := none, box := none, polygon := none }] (by intro r hr; simp at hr; simp [hr])

/-! ### C7: per-record error recovery in load_records -/

/-- C7 (amended): the load always continues past a record — processing the
    rest of the list is unaffected by what one record does, and a record
    whose frame or object id fails to parse is skipped with the store fully
    untouched; however a record that fails to parse later (for instance in
    its labels) is abandoned mid-way with its earlier assignments kept, so
    the targeted object's state is not always left unchanged by a skipped
    record. -/
theorem C7_partial_load_amended :
    (∀ (m : AnnotationModel) (rec : RawRec) (rest : List RawRec),
      m.load_records (rec :: rest) = (m.loadRec rec).load_records rest) ∧
    (∀ (m : AnnotationModel) (rec : RawRec),
      pyToInt (rec.frame_idx.getD (jint 0)) = none → m.loadRec rec = m) ∧
    (∀ (m : AnnotationModel) (rec : RawRec) (fidx : Int),
      pyToInt (rec.frame_idx.getD (jint 0)) = some fidx →
      pyToInt (rec.obj_id.getD (jint 1)) = none → m.loadRec rec = m) ∧
    ((((AnnotationModel.init []).add_point 1 9 9 1).load_records
        [{ frame_idx := some (jint 0), obj_id := some (jint 1),
           points := some (jlist [jlist [jint 1, jint 2]]),
           labels := some (jlist [jstr "x"]) }]).get_object 0 1 =
      some { box := none, points := [(1, 2)], labels := [1], polygon := none,
             class_name := none }) := by
  refine ⟨?_, ?_, ?_, by decide⟩
  · intro m rec rest
    rfl
  · intro m rec h
    unfold AnnotationModel.loadRec
    rw [h]
  · intro m rec fidx h1 h2
    unfold AnnotationModel.loadRec
    rw [h1, h2]

/-- C7 fails as stated: a record with parsable ids but malformed labels is
    "skipped", yet it has already overwritten the object's points, so the
    targeted object's state is changed by the skipped record. -/
theorem C7_counterexample :
    (((AnnotationModel.init []).add_point 1 9 9 1).load_records
        [{ frame_idx := some (jint 0), obj_id := some (jint 1),
           points := some (jlist [jlist [jint 1, jint 2]]),
           labels := some (jlist [jstr "x"]) }]).get_object 0 1 ≠
      ((AnnotationModel.init []).add_point 1 9 9 1).get_object 0 1 := by decide

theorem C7_witness :
    (AnnotationModel.init []).loadRec { frame_idx := some (jstr "abc") }
      = AnnotationModel.init [] :=
  C7_partial_load_amended.2.1 (AnnotationModel.init [])
    { frame_idx := some (jstr "abc") } (by decide)

/-! ### C8 and C9: the run_sam2 workflow -/

/-- C8: invoking the segmentation workflow for an object whose accumulated
    prompt state has no points and no valid box (w>0 and h>0) — or no
    object entry at all — is a no-op: the store is not mutated, so no
    polygon is committed and any existing polygon is unchanged. -/
theorem C8_no_prompt_noop :
    ∀ (env : Sam2Env) (m : AnnotationModel) (oid : Int),
      (m.get_object m.index oid = none ∨
        (∃ o, m.get_object m.index oid = some o ∧ o.points = [] ∧
          ¬∃ x y w h, o.box = some (x, y, w, h) ∧ 0 < w ∧ 0 < h)) →
      run_sam2 env m oid = m := by
  intro env m oid h
  unfold run_sam2
  by_cases h1 : (!env.sam2Present) = true
  · rw [if_pos h1]
  · rw [if_neg h1]
    by_cases h2 : (!env.sam2Available) = true
    · rw [if_pos h2]
    · rw [if_neg h2]
      by_cases h3 : (!env.cv2Present) = true
      · rw [if_pos h3]
      · rw [if_neg h3]
        rcases h with hnone | ⟨o, ho, hpts, hbox⟩
        · rw [hnone]
        · rw [ho]
          have h5 : boxValid o.box = false := by
            cases hbv : boxValid o.box
            · rfl
            · exact absurd ((boxValid_iff o.box).mp hbv) hbox
          simp [hpts, h5]

theorem C8_witness :
    run_sam2 ⟨true, true, true, true, [(0, 0), (1, 1), (2, 2)]⟩
      ((AnnotationModel.init []).set_class 1 (some "c")) 1
      = (AnnotationModel.init []).set_class 1 (some "c") :=
  C8_no_prompt_noop ⟨true, true, true, true, [(0, 0), (1, 1), (2, 2)]⟩
    ((AnnotationModel.init []).set_class 1 (some "c")) 1
    (Or.inr ⟨{ box := none, points := [], labels := [], polygon := none,
               class_name := some "c" },
      by decide, rfl, by rintro ⟨x, y, w, h, hb, hw, hh⟩; exact Option.noConfusion hb⟩)

/-- C9 (amended): once the availability guards pass and the object has a
    prompt, only an EMPTY mask-to-polygon result is treated as "no polygon
    produced" (store untouched); any non-empty result — including one with
    just 1 or 2 vertices — is committed via set_polygon, replacing the
    prior committed polygon. -/
theorem C9_short_polygon_amended :
    ∀ (env : Sam2Env) (m : AnnotationModel) (oid : Int) (o : ObjectAnno),
      env.sam2Present = true → env.sam2Available = true → env.cv2Present = true →
      env.imreadOk = true →
      m.get_object m.index oid = some o →
      (o.points ≠ [] ∨ ∃ x y w h, o.box = some (x, y, w, h) ∧ 0 < w ∧ 0 < h) →
      ((env.oraclePoly = [] → run_sam2 env m oid = m) ∧
       (env.oraclePoly ≠ [] →
         run_sam2 env m oid = m.set_polygon oid (some env.oraclePoly))) := by
  intro env m oid o h1 h2 h3 h4 ho hprompt
  have hcond : (o.points.isEmpty && !boxValid o.box) = false := by
    rcases hprompt with hp | hb
    · simp [List.isEmpty_eq_false_iff_exists_mem]
      intro hc
      exact absurd hc hp
    · have : boxValid o.box = true := (boxValid_iff o.box).mpr hb
      simp [this]
  constructor
  · intro hempty
    unfold run_sam2
    simp [h1, h2, h3, h4, ho, hcond, hempty]
  · intro hnonempty
    have hie : env.oraclePoly.isEmpty = false := by
      cases hp : env.oraclePoly with
      | nil => exact absurd hp hnonempty
      | cons a t => rfl
    unfold run_sam2
    simp [h1, h2, h3, h4, ho, hcond, hie]

/-- C9 fails as stated: a 2-vertex conversion result is not discarded — it
    is committed via set_polygon and replaces the prior 3-vertex polygon. -/
theorem C9_counterexample :
    ([((0 : Int), (0 : Int)), (1, 1)].length < 3) ∧
    ((((AnnotationModel.init []).add_point 1 5 5 1).set_polygon 1
        (some [(0, 0), (4, 0), (0, 4)])).get_object 0 1).map (fun o => o.polygon)
      = some (some [(0, 0), (4, 0), (0, 4)]) ∧
    ((run_sam2 ⟨true, true, true, true, [(0, 0), (1, 1)]⟩
        (((AnnotationModel.init []).add_point 1 5 5 1).set_polygon 1
          (some [(0, 0), (4, 0), (0, 4)])) 1).get_object 0 1).map (fun o => o.polygon)
      = some (some [(0, 0), (1, 1)]) := by
  refine ⟨by decide, by decide, by decide⟩

theorem C9_witness :
    run_sam2 ⟨true, true, true, true, [(0, 0), (1, 1)]⟩
      ((AnnotationModel.init []).add_point 1 5 5 1) 1
      = ((AnnotationModel.init []).add_point 1 5 5 1).set_polygon 1
          (some [(0, 0), (1, 1)]) :=
  (C9_short_polygon_amended ⟨true, true, true, true, [(0, 0), (1, 1)]⟩
    ((AnnotationModel.init []).add_point 1 5 5 1) 1
    { box := none, points := [(5, 5)], labels := [1], polygon := none,
      class_name := none }
    rfl rfl rfl rfl (by decide) (Or.inl (by decide))).2 (by decide)

/-! ### C10: save_annotations and the dirty flags -/

theorem saveStep_foldl (ms : List (String × AnnotationModel))
    (acc : List RawRec × List (String × AnnotationModel)) :
    ms.foldl saveStep acc =
      (acc.1 ++ ms.flatMap (fun vm => vm.2.to_records vm.1),
       acc.2 ++ ms.map (fun vm => (vm.1, { vm.2 with dirty := false }))) := by
  induction ms generalizing acc with
  | nil => simp
  | cons vm t ih =>
    rw [List.foldl_cons, ih]
    simp [saveStep]

/-- C10 (amended): saving flattens every in-memory store, in order, into
    one combined record list, but it clears every store's dirty flag BEFORE
    the file write is attempted: the flags are cleared whether or not the
    write succeeds, so a failed write still loses the dirty marks. -/
theorem C10_save_amended :
    ∀ (models : List (String × AnnotationModel)) (writeOk : Bool),
      (save_annotations models writeOk).payload
          = models.flatMap (fun vm => vm.2.to_records vm.1) ∧
      (save_annotations models writeOk).models
          = models.map (fun vm => (vm.1, { vm.2 with dirty := false })) ∧
      (save_annotations models writeOk).written = writeOk := by
  intro models writeOk
  unfold save_annotations
  rw [saveStep_foldl]
  exact ⟨rfl, rfl, rfl⟩

/-- C10 fails as stated: with a dirty store and a failing write, the dirty
    flag does not remain set — it has already been cleared. -/
theorem C10_counterexample :
    (save_annotations [("v", (AnnotationModel.init []).add_point 1 2 3 1)] false).written
        = false ∧
    ((AnnotationModel.init []).add_point 1 2 3 1).dirty = true ∧
    (save_annotations [("v", (AnnotationModel.init []).add_point 1 2 3 1)] false).models.map
        (fun vm => vm.2.dirty) = [false] := by
  refine ⟨rfl, by decide, by decide⟩

/-! ### C1: the persistence round trip -/

/-- What survives one serialisation of an object: an invalid box, a short
    polygon and an empty class name are dropped. -/
def cleanObj (o : ObjectAnno) : ObjectAnno :=
  { box := if boxValid o.box then o.box else none,
    points := o.points,
    labels := o.labels,
    polygon := if polyBig o.polygon then o.polygon else none,
    class_name := match o.class_name with
                  | some s => if s.isEmpty then none else some s
                  | none => none }

/-- A store is canonical when every stored object has content and is fixed
    by `cleanObj` (boxes valid, polygons of ≥3 vertices, class names
    nonempty). -/
def Canonical (m : AnnotationModel) : Prop :=
  ∀ e ∈ m.ann, ∀ e2 ∈ e.2.objects, hasContent e2.2 = true ∧ cleanObj e2.2 = e2.2

/-- No duplicate frame keys, and no duplicate object keys on any frame. -/
def WFKeys (m : AnnotationModel) : Prop :=
  (m.ann.map Prod.fst).Nodup ∧ ∀ e ∈ m.ann, (e.2.objects.map Prod.fst).Nodup

/-- The object entry created by loading the record of a fresh slot. -/
def objEntry (r : FullRec) : Int × ObjectAnno := (r.obj_id, applyObj {} r)

/-- No record of the list targets a slot already present in the store. -/
def FreshFor (m : AnnotationModel) (rs : List FullRec) : Prop :=
  ∀ r ∈ rs, m.get_object r.frame_idx r.obj_id = none

/-- All (frame, object) keys of the record list are pairwise distinct. -/
def KeysDistinct (rs : List FullRec) : Prop :=
  rs.Pairwise (fun a b => ¬(a.frame_idx = b.frame_idx ∧ a.obj_id = b.obj_id))

theorem applyObj_mkRec (vid : String) (f oid : Int) (o : ObjectAnno) :
    applyObj {} (mkRec vid f oid o) = cleanObj o := by
  unfold applyObj mkRec cleanObj
  cases hb : o.box with
  | none =>
    cases hp : o.polygon with
    | none => simp [boxValid, polyBig]
    | some p =>
      by_cases h3 : polyBig (some p) = true
      · have h3' : decide (3 ≤ p.length) = true := h3
        simp [boxValid, h3, h3']
      · have h3' : decide (3 ≤ p.length) = false := by
          cases hd : decide (3 ≤ p.length)
          · rfl
          · exact absurd hd h3
        simp [boxValid, h3, h3']
  | some b =>
    obtain ⟨x, y, w, h⟩ := b
    cases hp : o.polygon with
    | none =>
      by_cases hv : boxValid (some (x, y, w, h)) = true
      · simp [hv, polyBig]
      · simp [Bool.not_eq_true] at hv
        simp [hv, polyBig]
    | some p =>
      by_cases hv : boxValid (some (x, y, w, h)) = true
      · by_cases h3 : polyBig (some p) = true
        · have h3' : decide (3 ≤ p.length) = true := h3
          simp [hv, h3, h3']
        · have h3' : decide (3 ≤ p.length) = false := by
            cases hd : decide (3 ≤ p.length)
            · rfl
            · exact absurd hd h3
          simp [hv, h3, h3']
      · simp [Bool.not_eq_true] at hv
        by_cases h3 : polyBig (some p) = true
        · have h3' : decide (3 ≤ p.length) = true := h3
          simp [hv, h3, h3']
        · have h3' : decide (3 ≤ p.length) = false := by
            cases hd : decide (3 ≤ p.length)
            · rfl
            · exact absurd hd h3
          simp [hv, h3, h3']

theorem boxValid_clean (b : Option (Int × Int × Int × Int)) :
    boxValid (if boxValid b then b else none) = boxValid b := by
  by_cases h : boxValid b = true
  · rw [if_pos h, h]
  · have h2 : boxValid b = false := by
      cases hh : boxValid b
      · rfl
      · exact absurd hh h
    rw [h2]
    simp [boxValid]

theorem polyBig_clean (p : Option (List (Int × Int))) :
    polyBig (if polyBig p then p else none) = polyBig p := by
  by_cases h : polyBig p = true
  · rw [if_pos h, h]
  · have h2 : polyBig p = false := by
      cases hh : polyBig p
      · rfl
      · exact absurd hh h
    rw [h2]
    simp [polyBig]

theorem hasContent_cleanObj (o : ObjectAnno) : hasContent (cleanObj o) = hasContent o := by
  show (boxValid (if boxValid o.box then o.box else none) || !o.points.isEmpty ||
      polyBig (if polyBig o.polygon then o.polygon else none)) = hasContent o
  rw [boxValid_clean, polyBig_clean]
  rfl

theorem applyFull_ann_ne (m : AnnotationModel) (r : FullRec) (f : Int)
    (h : f ≠ r.frame_idx) : alGet f (m.applyFull r).ann = alGet f m.ann := by
  rw [applyFull_eq_modify, modifyObj_ann, alGet_alModify_ne _ _ _ _ h,
    ensureObj_ann_ne _ _ _ _ h]

theorem applyFull_ann_newframe (m : AnnotationModel) (r : FullRec)
    (h : alGet r.frame_idx m.ann = none) :
    alGet r.frame_idx (m.applyFull r).ann = some { objects := [objEntry r] } := by
  rw [applyFull_eq_modify, modifyObj_ann, alGet_alModify_self, ensureObj_ann_self, h]
  simp only [Option.getD_none, Option.map_some', Option.some.injEq]
  show FrameAnno.mk (alModify r.obj_id _ (alEnsure r.obj_id {} ({} : FrameAnno).objects)) = _
  simp [alEnsure, alGet, alModify, objEntry]

theorem applyFull_ann_oldframe (m : AnnotationModel) (r : FullRec) (fr : FrameAnno)
    (hfr : alGet r.frame_idx m.ann = some fr)
    (hobj : alGet r.obj_id fr.objects = none) :
    alGet r.frame_idx (m.applyFull r).ann
      = some { objects := fr.objects ++ [objEntry r] } := by
  rw [applyFull_eq_modify, modifyObj_ann, alGet_alModify_self, ensureObj_ann_self, hfr]
  simp only [Option.getD_some, Option.map_some', Option.some.injEq]
  show FrameAnno.mk (alModify r.obj_id _ (alEnsure r.obj_id {} fr.objects)) = _
  rw [alEnsure_of_none _ _ _ hobj, alModify_append_last _ _ _ _ hobj]
  rfl

theorem loadFull_frame (m : AnnotationModel) (rs : List FullRec)
    (hfresh : FreshFor m rs) (hdist : KeysDistinct rs) (f : Int) :
    alGet f (m.loadFull rs).ann =
      match alGet f m.ann with
      | some fr => some { fr with objects :=
          fr.objects ++ (rs.filter (fun r => decide (r.frame_idx = f))).map objEntry }
      | none =>
          if (rs.filter (fun r => decide (r.frame_idx = f))).isEmpty then none
          else some { objects := (rs.filter (fun r => decide (r.frame_idx = f))).map objEntry } := by
  induction rs generalizing m with
  | nil =>
    show alGet f m.ann = _
    cases hfr : alGet f m.ann with
    | none => simp
    | some fr => simp
  | cons r rt ih =>
    have hdist2 : KeysDistinct rt := (List.pairwise_cons.mp hdist).2
    have hhead := (List.pairwise_cons.mp hdist).1
    have hfresh2 : FreshFor (m.applyFull r) rt := by
      intro r2 h2
      rw [get_object_applyFull_ne m r _ _ (fun hc => hhead r2 h2 ⟨hc.1.symm, hc.2.symm⟩)]
      exact hfresh r2 (List.mem_cons_of_mem r h2)
    have hstep : (m.loadFull (r :: rt)) = ((m.applyFull r).loadFull rt) := rfl
    rw [hstep, ih (m.applyFull r) hfresh2 hdist2]
    by_cases hf : f = r.frame_idx
    · subst hf
      have hfilter : (r :: rt).filter (fun r2 => decide (r2.frame_idx = r.frame_idx))
          = r :: rt.filter (fun r2 => decide (r2.frame_idx = r.frame_idx)) := by
        simp [List.filter_cons]
      rw [hfilter]
      cases hfr : alGet r.frame_idx m.ann with
      | none =>
        rw [applyFull_ann_newframe m r hfr]
        simp
      | some fr =>
        have hobj : alGet r.obj_id fr.objects = none := by
          have := hfresh r (List.mem_cons_self r rt)
          unfold AnnotationModel.get_object at this
          rw [hfr] at this
          exact this
        rw [applyFull_ann_oldframe m r fr hfr hobj]
        simp
    · have hfilter : (r :: rt).filter (fun r2 => decide (r2.frame_idx = f))
          = rt.filter (fun r2 => decide (r2.frame_idx = f)) := by
        simp [List.filter_cons]
        intro hc
        exact absurd hc.symm hf
      rw [hfilter, applyFull_ann_ne m r f hf]

theorem alGet_map_objEntry (rs : List FullRec) (k : Int) :
    alGet k (rs.map objEntry)
      = (rs.find? (fun r => decide (r.obj_id = k))).map (fun r => applyObj {} r) := by
  induction rs with
  | nil => rfl
  | cons r rt ih =>
    by_cases h : r.obj_id = k
    · simp [objEntry, alGet, h, List.find?_cons_of_pos]
    · rw [List.map_cons]
      show (if r.obj_id = k then some (applyObj {} r) else alGet k (rt.map objEntry)) = _
      rw [if_neg h, List.find?_cons_of_neg, ih]
      simp [h]

theorem find?_filter_frame (rs : List FullRec) (f oid : Int) :
    ((rs.filter (fun r => decide (r.frame_idx = f))).find? (fun r => decide (r.obj_id = oid)))
      = rs.find? (fun r => decide (r.frame_idx = f) && decide (r.obj_id = oid)) := by
  induction rs with
  | nil => rfl
  | cons r rt ih =>
    by_cases hf : r.frame_idx = f
    · by_cases ho : r.obj_id = oid
      · simp [List.filter_cons, hf, ho, List.find?_cons_of_pos]
      · rw [List.filter_cons, if_pos (by simp [hf]), List.find?_cons_of_neg _ (by simp [ho]),
          List.find?_cons_of_neg _ (by simp [ho]), ih]
    · rw [List.filter_cons, if_neg (by simp [hf]), ih,
        List.find?_cons_of_neg _ (by simp [hf])]

theorem loadFull_get_object_fresh (L : List String) (rs : List FullRec)
    (hdist : KeysDistinct rs) (f oid : Int) :
    ((AnnotationModel.init L).loadFull rs).get_object f oid =
      (rs.find? (fun r => decide (r.frame_idx = f) && decide (r.obj_id = oid))).map
        (fun r => applyObj {} r) := by
  have hfresh : FreshFor (AnnotationModel.init L) rs := fun r _ => rfl
  unfold AnnotationModel.get_object
  rw [loadFull_frame _ _ hfresh hdist f]
  have h0 : alGet f (AnnotationModel.init L).ann = none := rfl
  rw [h0]
  by_cases he : (rs.filter (fun r => decide (r.frame_idx = f))).isEmpty = true
  · rw [if_pos he]
    have hnone : rs.find? (fun r => decide (r.frame_idx = f) && decide (r.obj_id = oid))
        = none := by
      rw [← find?_filter_frame]
      rw [List.isEmpty_iff] at he
      rw [he]
      rfl
    rw [hnone]
    rfl
  · rw [if_neg he]
    show alGet oid ((rs.filter (fun r => decide (r.frame_idx = f))).map objEntry) = _
    rw [alGet_map_objEntry, find?_filter_frame]

theorem alGet_some_mem_keys {α : Type} (k : Int) (v : α) (l : List (Int × α))
    (h : alGet k l = some v) : k ∈ l.map Prod.fst :=
  List.mem_map_of_mem Prod.fst (mem_of_alGet k v l h)

theorem mem_toFullRecs (m : AnnotationModel) (vid : String) (r : FullRec) :
    r ∈ m.toFullRecs vid ↔
      ∃ fr o, alGet r.frame_idx m.ann = some fr ∧ alGet r.obj_id fr.objects = some o ∧
        hasContent o = true ∧ r = mkRec vid r.frame_idx r.obj_id o := by
  unfold AnnotationModel.toFullRecs
  rw [List.mem_flatMap]
  constructor
  · rintro ⟨fidx, hfidx, hr⟩
    cases hfr : alGet fidx m.ann with
    | none => rw [hfr] at hr; exact absurd hr (List.not_mem_nil r)
    | some fr =>
      rw [hfr] at hr
      obtain ⟨oid, hoid, hpass⟩ := List.mem_filterMap.mp hr
      cases hob : alGet oid fr.objects with
      | none => rw [hob] at hpass; exact absurd hpass (by simp)
      | some o =>
        rw [hob] at hpass
        dsimp only at hpass
        by_cases hc : hasContent o = true
        · rw [if_pos hc] at hpass
          have hr2 : r = mkRec vid fidx oid o := by
            injection hpass with h2
            exact h2.symm
          have hf2 : r.frame_idx = fidx := by rw [hr2]; rfl
          have ho2 : r.obj_id = oid := by rw [hr2]; rfl
          rw [hf2, ho2]
          exact ⟨fr, o, hfr, hob, hc, hr2⟩
        · rw [if_neg hc] at hpass
          exact absurd hpass (by simp)
  · rintro ⟨fr, o, hfr, hob, hc, hr⟩
    refine ⟨r.frame_idx, ?_, ?_⟩
    · rw [mem_sortInts]
      exact alGet_some_mem_keys _ _ _ hfr
    · rw [hfr]
      apply List.mem_filterMap.mpr
      refine ⟨r.obj_id, ?_, ?_⟩
      · rw [mem_sortInts]
        exact alGet_some_mem_keys _ _ _ hob
      · rw [hob]
        dsimp only
        rw [if_pos hc, hr]
        rfl

theorem pairwise_filterMap_oid (l : List Int) (h : Int → Option FullRec)
    (hl : l.Nodup) (hh : ∀ k r, h k = some r → r.obj_id = k) :
    (l.filterMap h).Pairwise (fun a b => a.obj_id ≠ b.obj_id) := by
  induction l with
  | nil => exact List.Pairwise.nil
  | cons k kt ih =>
    obtain ⟨hknot, htail⟩ := List.nodup_cons.mp hl
    rw [List.filterMap_cons]
    cases hk : h k with
    | none => exact ih htail
    | some r =>
      refine List.Pairwise.cons ?_ (ih htail)
      intro b hb
      obtain ⟨k2, hk2mem, hk2⟩ := List.mem_filterMap.mp hb
      rw [hh k2 b hk2, hh k r hk]
      intro hc
      exact hknot (hc ▸ hk2mem)

theorem keysDistinct_flatMap (fs : List Int) (g : Int → List FullRec)
    (hfs : fs.Nodup)
    (hframe : ∀ f, ∀ r ∈ g f, r.frame_idx = f)
    (hinner : ∀ f ∈ fs, (g f).Pairwise (fun a b => a.obj_id ≠ b.obj_id)) :
    KeysDistinct (fs.flatMap g) := by
  induction fs with
  | nil => exact List.Pairwise.nil
  | cons f ft ih =>
    obtain ⟨hfnot, htail⟩ := List.nodup_cons.mp hfs
    rw [List.flatMap_cons]
    show List.Pairwise (fun a b => ¬(a.frame_idx = b.frame_idx ∧ a.obj_id = b.obj_id))
      (g f ++ ft.flatMap g)
    rw [List.pairwise_append]
    refine ⟨?_, ?_, ?_⟩
    · exact (hinner f (List.mem_cons_self f ft)).imp (fun hne hc => hne hc.2)
    · exact ih htail (fun f2 h2 => hinner f2 (List.mem_cons_of_mem f h2))
    · intro a ha b hb hc
      obtain ⟨f2, hf2, hb2⟩ := List.mem_flatMap.mp hb
      have h1 : a.frame_idx = f := hframe f a ha
      have h2 : b.frame_idx = f2 := hframe f2 b hb2
      rw [h1, h2] at hc
      exact hfnot (hc.1 ▸ hf2)

theorem toFullRecs_pairwise (m : AnnotationModel) (vid : String) (hwf : WFKeys m) :
    KeysDistinct (m.toFullRecs vid) := by
  unfold AnnotationModel.toFullRecs
  apply keysDistinct_flatMap
  · exact sortInts_nodup _ hwf.1
  · intro f r hr
    cases hfr : alGet f m.ann with
    | none => rw [hfr] at hr; exact absurd hr (List.not_mem_nil r)
    | some fr =>
      rw [hfr] at hr
      obtain ⟨oid, hoid, hpass⟩ := List.mem_filterMap.mp hr
      cases hob : alGet oid fr.objects with
      | none => rw [hob] at hpass; exact absurd hpass (by simp)
      | some o =>
        rw [hob] at hpass
        dsimp only at hpass
        by_cases hc : hasContent o = true
        · rw [if_pos hc] at hpass
          injection hpass with h2
          rw [← h2]
          rfl
        · rw [if_neg hc] at hpass
          exact absurd hpass (by simp)
  · intro f hf
    cases hfr : alGet f m.ann with
    | none => exact List.Pairwise.nil
    | some fr =>
      apply pairwise_filterMap_oid
      · apply sortInts_nodup
        exact hwf.2 (f, fr) (mem_of_alGet _ _ _ hfr)
      · intro k r hk
        cases hob : alGet k fr.objects with
        | none => rw [hob] at hk; exact absurd hk (by simp)
        | some o =>
          rw [hob] at hk
          dsimp only at hk
          by_cases hc : hasContent o = true
          · rw [if_pos hc] at hk
            injection hk with h2
            rw [← h2]
            rfl
          · rw [if_neg hc] at hk
            exact absurd hk (by simp)

/-- C1 (amended): for every well-formed store (no duplicate frame or object
    keys), `to_records` followed by `load_records` into a fresh store for
    the same video preserves `is_frame_annotated` on every frame; and when
    the store is moreover canonical — every stored object has content, every
    stored box is valid, every stored polygon has at least 3 vertices, and
    every stored class name is nonempty — the round trip also reproduces
    every `get_object` result exactly.  Without canonicity `get_object` is
    not preserved: serialisation drops content-less objects, invalid boxes,
    short polygons and empty class names (see the counterexample). -/
theorem C1_roundtrip_amended :
    ∀ (m : AnnotationModel) (vid : String) (L : List String),
      WFKeys m →
      (∀ f : Int,
        ((AnnotationModel.init L).load_records (m.to_records vid)).is_frame_annotated f
          = m.is_frame_annotated f) ∧
      (Canonical m →
        ∀ f oid : Int,
          ((AnnotationModel.init L).load_records (m.to_records vid)).get_object f oid
            = m.get_object f oid) := by
  intro m vid L hwf
  have hdist := toFullRecs_pairwise m vid hwf
  have hload : (AnnotationModel.init L).load_records (m.to_records vid)
      = (AnnotationModel.init L).loadFull (m.toFullRecs vid) := by
    unfold AnnotationModel.to_records
    exact load_records_encode _ _
  constructor
  · intro f
    rw [hload]
    unfold AnnotationModel.is_frame_annotated
    have hfresh : FreshFor (AnnotationModel.init L) (m.toFullRecs vid) := fun r _ => rfl
    rw [loadFull_frame _ _ hfresh hdist f]
    have h0 : alGet f (AnnotationModel.init L).ann = none := rfl
    rw [h0]
    by_cases he : ((m.toFullRecs vid).filter
        (fun r => decide (r.frame_idx = f))).isEmpty = true
    · rw [if_pos he]
      rw [List.isEmpty_iff] at he
      cases hfr : alGet f m.ann with
      | none => rfl
      | some fr =>
        cases hab : (fr.objects.any fun e => hasContent e.2) with
        | false =>
          show (false : Bool) = (fr.objects.any fun e => hasContent e.2)
          rw [hab]
        | true =>
          exfalso
          obtain ⟨e, hmem, hce⟩ := List.any_eq_true.mp hab
          obtain ⟨eoid, eo⟩ := e
          have hobj : alGet eoid fr.objects = some eo :=
            alGet_of_mem_nodup _ _ _ (hwf.2 (f, fr) (mem_of_alGet _ _ _ hfr)) hmem
          have hrmem : mkRec vid f eoid eo ∈ m.toFullRecs vid := by
            rw [mem_toFullRecs]
            exact ⟨fr, eo, hfr, hobj, hce, rfl⟩
          have hfmem : mkRec vid f eoid eo ∈ (m.toFullRecs vid).filter
              (fun r => decide (r.frame_idx = f)) := by
            rw [List.mem_filter]
            exact ⟨hrmem, by simp [mkRec]⟩
          rw [he] at hfmem
          exact absurd hfmem (List.not_mem_nil _)
    · rw [if_neg he]
      have hne : ((m.toFullRecs vid).filter (fun r => decide (r.frame_idx = f))) ≠ [] := by
        intro hc
        rw [hc] at he
        exact he rfl
      obtain ⟨r0, hr0⟩ := List.exists_mem_of_ne_nil _ hne
      have hr0m := (List.mem_filter.mp hr0).1
      have hf0 : r0.frame_idx = f := by
        have := (List.mem_filter.mp hr0).2
        simpa using this
      obtain ⟨fr0, o0, hfr0, hob0, hc0, hrq⟩ := (mem_toFullRecs m vid r0).mp hr0m
      have hLHS : ((((m.toFullRecs vid).filter
          (fun r => decide (r.frame_idx = f))).map objEntry).any
          fun e => hasContent e.2) = true := by
        apply List.any_eq_true.mpr
        refine ⟨objEntry r0, List.mem_map_of_mem _ hr0, ?_⟩
        show hasContent (applyObj {} r0) = true
        rw [hrq, applyObj_mkRec, hasContent_cleanObj]
        exact hc0
      rw [hf0] at hfr0
      rw [hfr0]
      show ((((m.toFullRecs vid).filter (fun r => decide (r.frame_idx = f))).map
        objEntry).any fun e => hasContent e.2) = (fr0.objects.any fun e => hasContent e.2)
      rw [hLHS]
      have hRHS : (fr0.objects.any fun e => hasContent e.2) = true := by
        apply List.any_eq_true.mpr
        refine ⟨(r0.obj_id, o0), mem_of_alGet _ _ _ hob0, hc0⟩
      rw [hRHS]
  · intro hcan f oid
    rw [hload, loadFull_get_object_fresh L _ hdist f oid]
    cases hm : m.get_object f oid with
    | some o =>
      obtain ⟨fr, hfr, hob⟩ := get_object_some_elim m f oid o hm
      obtain ⟨hc, hclean⟩ := hcan (f, fr) (mem_of_alGet _ _ _ hfr)
        (oid, o) (mem_of_alGet _ _ _ hob)
      have hmem : mkRec vid f oid o ∈ m.toFullRecs vid := by
        rw [mem_toFullRecs]
        exact ⟨fr, o, hfr, hob, hc, rfl⟩
      cases hfind : (m.toFullRecs vid).find?
          (fun r => decide (r.frame_idx = f) && decide (r.obj_id = oid)) with
      | none =>
        exfalso
        have hnone := List.find?_eq_none.mp hfind _ hmem
        simp [mkRec] at hnone
      | some r =>
        have hprd := List.find?_some hfind
        have hmem2 := List.mem_of_find?_eq_some hfind
        obtain ⟨fr2, o2, hfr2, hob2, hc2, hrq⟩ := (mem_toFullRecs m vid r).mp hmem2
        simp only [Bool.and_eq_true, decide_eq_true_eq] at hprd
        obtain ⟨hpf, hpo⟩ := hprd
        rw [hpf] at hfr2
        rw [hpo] at hob2
        rw [hfr] at hfr2
        injection hfr2 with hfre
        subst hfre
        rw [hob] at hob2
        injection hob2 with hobe
        subst hobe
        rw [hrq, hpf, hpo]
        show some (applyObj {} (mkRec vid f oid o)) = some o
        rw [applyObj_mkRec, hclean]
    | none =>
      cases hfind : (m.toFullRecs vid).find?
          (fun r => decide (r.frame_idx = f) && decide (r.obj_id = oid)) with
      | none => rfl
      | some r =>
        exfalso
        have hprd := List.find?_some hfind
        have hmem2 := List.mem_of_find?_eq_some hfind
        obtain ⟨fr2, o2, hfr2, hob2, hc2, hrq⟩ := (mem_toFullRecs m vid r).mp hmem2
        simp only [Bool.and_eq_true, decide_eq_true_eq] at hprd
        obtain ⟨hpf, hpo⟩ := hprd
        rw [hpf] at hfr2
        rw [hpo] at hob2
        unfold AnnotationModel.get_object at hm
        rw [hfr2] at hm
        dsimp only at hm
        rw [hob2] at hm
        exact Option.noConfusion hm

/-- C1 fails as stated: a store whose only mutation is `setClass` (a valid
    mutation) does not survive the round trip — serialisation drops the
    content-less object, so `get_object` changes from the class-only object
    to absent. -/
theorem C1_counterexample :
    ((AnnotationModel.init []).load_records
        (((AnnotationModel.init []).set_class 1 (some "fish")).to_records "v")).get_object 0 1
      ≠ ((AnnotationModel.init []).set_class 1 (some "fish")).get_object 0 1 := by decide

theorem C1_witness :
    ((AnnotationModel.init []).load_records
        (((AnnotationModel.init []).add_point 1 5 5 1).to_records "v")).get_object 0 1
      = ((AnnotationModel.init []).add_point 1 5 5 1).get_object 0 1 ∧
    ((AnnotationModel.init []).load_records
        (((AnnotationModel.init []).add_point 1 5 5 1).to_records "v")).is_frame_annotated 0
      = ((AnnotationModel.init []).add_point 1 5 5 1).is_frame_annotated 0 := by
  constructor
  · exact (C1_roundtrip_amended ((AnnotationModel.init []).add_point 1 5 5 1) "v" []
      (by constructor
          · decide
          · decide)).2
      (by intro e he e2 he2
          fin_cases he
          fin_cases he2
          exact ⟨by decide, by decide⟩) 0 1
  · exact (C1_roundtrip_amended ((AnnotationModel.init []).add_point 1 5 5 1) "v" []
      (by constructor
          · decide
          · decide)).1 0

/-! ### C6: the numeric frame-ordering key -/

theorem takeWhile_append_of_all (p : Char → Bool) (l l2 : List Char)
    (h : l.all p = true) : (l ++ l2).takeWhile p = l ++ l2.takeWhile p := by
  induction l with
  | nil => simp
  | cons c t ih =>
    rw [List.all_cons, Bool.and_eq_true] at h
    simp [List.takeWhile_cons, h.1, ih h.2]

theorem takeWhile_append_of_not_all (p : Char → Bool) (l l2 : List Char)
    (h : l.all p = false) : (l ++ l2).takeWhile p = l.takeWhile p := by
  induction l with
  | nil => simp at h
  | cons c t ih =>
    rw [List.all_cons] at h
    cases hc : p c with
    | false => simp [List.takeWhile_cons, hc]
    | true =>
      rw [hc] at h
      simp only [Bool.true_and] at h
      simp [List.takeWhile_cons, hc, ih h]

/-- The trailing digit run of a string. -/
def trailRun (cs : List Char) : List Char :=
  (cs.reverse.takeWhile Char.isDigit).reverse

theorem trailRun_of_all (cs : List Char) (h : cs.all Char.isDigit = true) :
    trailRun cs = cs := by
  unfold trailRun
  rw [List.takeWhile_eq_self_iff.mpr, List.reverse_reverse]
  intro c hc
  rw [List.all_eq_true] at h
  exact h c (List.mem_reverse.mp hc)

theorem trailRun_cons_of_not_all (c : Char) (cs : List Char)
    (h : cs.all Char.isDigit = false) : trailRun (c :: cs) = trailRun cs := by
  unfold trailRun
  rw [List.reverse_cons, takeWhile_append_of_not_all Char.isDigit _ _ (by
    rw [List.all_reverse]; exact h)]

theorem trailRun_cons_nondigit_of_all (c : Char) (cs : List Char)
    (hc : c.isDigit = false) (h : cs.all Char.isDigit = true) :
    trailRun (c :: cs) = cs := by
  unfold trailRun
  rw [List.reverse_cons, takeWhile_append_of_all Char.isDigit _ _ (by
    rw [List.all_reverse]; exact h)]
  simp [List.takeWhile_cons, hc]

theorem bool_ne_true {b : Bool} (h : b = false) : ¬(b = true) := by
  intro h2
  rw [h] at h2
  exact Bool.noConfusion h2

theorem digitRunsAux_append_nondigit (c : Char) (hc : c.isDigit = false)
    (cs : List Char) : ∀ acc, digitRunsAux (cs ++ [c]) acc = digitRunsAux cs acc := by
  induction cs with
  | nil =>
    intro acc
    cases hacc : acc.isEmpty <;> simp [digitRunsAux, hc, hacc]
  | cons c2 ct ih =>
    intro acc
    by_cases hc2 : c2.isDigit = true
    · simp [digitRunsAux, hc2, ih]
    · have hc2f : c2.isDigit = false := by
        cases hh : c2.isDigit
        · rfl
        · exact absurd hh hc2
      cases hacc : acc.isEmpty <;> simp [digitRunsAux, hc2f, hacc, ih]

theorem digitRunsAux_append_digit (c : Char) (hc : c.isDigit = true) (cs : List Char) :
    ∀ acc, (digitRunsAux (cs ++ [c]) acc).getLast? =
      some ((if cs.all Char.isDigit then acc.reverse ++ cs else trailRun cs) ++ [c]) := by
  induction cs with
  | nil =>
    intro acc
    simp [digitRunsAux, hc]
  | cons c2 ct ih =>
    intro acc
    by_cases hc2 : c2.isDigit = true
    · have hlhs : digitRunsAux ((c2 :: ct) ++ [c]) acc = digitRunsAux (ct ++ [c]) (c2 :: acc) := by
        simp [digitRunsAux, hc2]
      rw [hlhs, ih (c2 :: acc)]
      by_cases hall : ct.all Char.isDigit = true
      · have hall2 : (c2 :: ct).all Char.isDigit = true := by simp [List.all_cons, hc2, hall]
        rw [if_pos hall, if_pos hall2]
        simp
      · have hallf : ct.all Char.isDigit = false := by
          cases hh : ct.all Char.isDigit
          · rfl
          · exact absurd hh hall
        have hall2 : (c2 :: ct).all Char.isDigit = false := by
          simp [List.all_cons, hallf]
        rw [if_neg (bool_ne_true hallf), if_neg (bool_ne_true hall2),
          trailRun_cons_of_not_all c2 ct hallf]
    · have hc2f : c2.isDigit = false := by
        cases hh : c2.isDigit
        · rfl
        · exact absurd hh hc2
      have hall2 : (c2 :: ct).all Char.isDigit = false := by
        simp [List.all_cons, hc2f]
      have htr : trailRun (c2 :: ct) = if ct.all Char.isDigit then ct else trailRun ct := by
        by_cases hall : ct.all Char.isDigit = true
        · rw [if_pos hall]
          exact trailRun_cons_nondigit_of_all c2 ct hc2f hall
        · have hallf : ct.all Char.isDigit = false := by
            cases hh : ct.all Char.isDigit
            · rfl
            · exact absurd hh hall
          rw [if_neg (bool_ne_true hallf)]
          exact trailRun_cons_of_not_all c2 ct hallf
      have hbase : (digitRunsAux (ct ++ [c]) []).getLast? =
          some ((if ct.all Char.isDigit then ct else trailRun ct) ++ [c]) := by
        have := ih []
        simpa using this
      cases hacc : acc.isEmpty with
      | true =>
        have hlhs : digitRunsAux ((c2 :: ct) ++ [c]) acc = digitRunsAux (ct ++ [c]) acc := by
          simp [digitRunsAux, hc2f, hacc]
        have haccnil : acc = [] := by
          cases acc
          · rfl
          · simp at hacc
        rw [hlhs, haccnil]
        rw [hbase, if_neg (bool_ne_true hall2), htr]
      | false =>
        have hlhs : digitRunsAux ((c2 :: ct) ++ [c]) acc
            = acc.reverse :: digitRunsAux (ct ++ [c]) [] := by
          simp [digitRunsAux, hc2f, hacc]
        rw [hlhs]
        cases hres : digitRunsAux (ct ++ [c]) [] with
        | nil => rw [hres] at hbase; exact absurd hbase (by simp)
        | cons b bt =>
          rw [hres] at hbase
          rw [List.getLast?_cons_cons, hbase, if_neg (bool_ne_true hall2), htr]

theorem digitRuns_getLast (cs : List Char) :
    (digitRuns cs).getLast? =
      if (specLastRun cs).isEmpty then none else some (specLastRun cs) := by
  induction cs using List.reverseRecOn with
  | nil => rfl
  | append_singleton cs c ih =>
    cases hc : c.isDigit with
    | false =>
      have h1 : digitRuns (cs ++ [c]) = digitRuns cs :=
        digitRunsAux_append_nondigit c hc cs []
      have hspec : specLastRun (cs ++ [c]) = specLastRun cs := by
        unfold specLastRun
        rw [List.reverse_append]
        simp [List.dropWhile_cons, hc]
      rw [h1, hspec, ih]
    | true =>
      have h1 : (digitRuns (cs ++ [c])).getLast? =
          some ((if cs.all Char.isDigit then cs else trailRun cs) ++ [c]) := by
        have := digitRunsAux_append_digit c hc cs []
        simpa using this
      have hspec : specLastRun (cs ++ [c]) = trailRun cs ++ [c] := by
        unfold specLastRun trailRun
        rw [List.reverse_append]
        simp [List.dropWhile_cons, hc, List.takeWhile_cons]
      rw [h1, hspec]
      have hne : (trailRun cs ++ [c]).isEmpty = false := by simp
      rw [hne]
      simp only [Bool.false_eq_true, if_false]
      by_cases hall : cs.all Char.isDigit = true
      · rw [if_pos hall, trailRun_of_all cs hall]
      · have hallf : cs.all Char.isDigit = false := by
          cases hh : cs.all Char.isDigit
          · rfl
          · exact absurd hh hall
        rw [if_neg (bool_ne_true hallf)]

theorem numeric_key_eq_spec (name : String) : numeric_key name = specNumericKey name := by
  unfold numeric_key specNumericKey
  by_cases hd : pyIsDigit (pathStem name) = true
  · simp [hd]
  · have hd2 : pyIsDigit (pathStem name) = false := by
      cases h : pyIsDigit (pathStem name)
      · rfl
      · exact absurd h hd
    simp only [hd2, Bool.false_eq_true, if_false]
    rw [digitRuns_getLast]
    by_cases he : (specLastRun (pathStem name).toList).isEmpty = true
    · rw [if_pos he, if_pos he]
    · rw [if_neg he, if_neg he]

/-- C6: the frame ordering key maps a filename stem to the integer it
    spells when the stem is pure digits, otherwise to the integer formed by
    the last contiguous run of digits in the stem, otherwise to 0 —
    `specNumericKey` states that rule directly, reading the last run off
    the right end of the stem; consequently frames named "2.jpg", "10.jpg",
    "1.jpg" are listed in the order 1, 2, 10. -/
theorem C6_numeric_order :
    (∀ name : String, numeric_key name = specNumericKey name) ∧
    (AnnotationModel.init ["2.jpg", "10.jpg", "1.jpg"]).frames
      = ["1.jpg", "2.jpg", "10.jpg"] := by
  refine ⟨numeric_key_eq_spec, ?_⟩
  decide
